import Mathlib

set_option maxHeartbeats 1000000

/-! Verification development for the SortChecker repository
(`include/checker.hpp`, `include/sort_checker.hpp`, `include/hash.hpp`).

Machine integers (`uint64_t`) are modelled as `Nat` with explicit reduction
modulo `2 ^ 64` at every addition, mirroring C++ unsigned wraparound.  The
hash function is an abstract parameter `hash : α → Nat`, matching the `Hash`
template parameter of both classes (the repository instantiates it with
tabulation hashing, but the classes are generic in it).  Iterator ranges are
modelled as Lean lists; the aliasing-sensitive `combine_pre` / `combine_post`
members are modelled over an explicit memory (a list of checkers) with the
caller (`this`) given by an index into that memory, the iterator range being
the indices `[0, r)`. -/

/-- Modulus of `uint64_t` arithmetic. -/
def u64Mod : Nat := 2 ^ 64

/-- Wrapping `uint64_t` addition: `a + b` reduced modulo `2 ^ 64`. -/
def addU64 (a b : Nat) : Nat := (a + b) % u64Mod

theorem u64Mod_pos : 0 < u64Mod := by decide

theorem addU64_lt (a b : Nat) : addU64 a b < u64Mod :=
  Nat.mod_lt _ u64Mod_pos

theorem addU64_eq (a b : Nat) : addU64 a b = (a + b) % u64Mod := rfl

/-! ## `permute_checker::Checker` (checker.hpp) -/

/-- State of `permute_checker::Checker` (checker.hpp, lines 37-122): counts
and wrapping hash sums of the pre- and post-streams. -/
structure Checker where
  count_pre : Nat
  count_post : Nat
  sum_pre : Nat
  sum_post : Nat
deriving DecidableEq

/-- The zero state established by the constructor / `reset` (checker.hpp,
lines 47-56). -/
def Checker.init : Checker :=
  { count_pre := 0, count_post := 0, sum_pre := 0, sum_post := 0 }

/-- `Checker::reset` (checker.hpp, lines 51-56): zero all fields. -/
def Checker.reset (_ : Checker) : Checker := Checker.init

/-- `Checker::add_pre` (checker.hpp, lines 63-67). -/
def Checker.add_pre {α : Type} (hash : α → Nat) (v : α) (c : Checker) : Checker :=
  { c with sum_pre := addU64 c.sum_pre (hash v), count_pre := addU64 c.count_pre 1 }

/-- `Checker::add_post` (checker.hpp, lines 74-79). -/
def Checker.add_post {α : Type} (hash : α → Nat) (v : α) (c : Checker) : Checker :=
  { c with sum_post := addU64 c.sum_post (hash v), count_post := addU64 c.count_post 1 }

/-- `Checker::is_likely_permutation` (checker.hpp, lines 111-113). -/
def Checker.is_likely_permutation (c : Checker) : Bool :=
  (c.count_pre == c.count_post) && (c.sum_pre == c.sum_post)

/-- Default value used to total out-of-range reads in the memory model
(never reached under the theorems' index hypotheses). -/
def Checker.d0 : Checker := Checker.init

/-- Effect of the statement pair `this->count_pre += checker.count_pre;
this->sum_pre += checker.sum_pre;` (checker.hpp, lines 83-84) on the caller
`c` reading checker `x`. -/
def Checker.readUpdPre (c x : Checker) : Checker :=
  { c with count_pre := addU64 c.count_pre x.count_pre,
           sum_pre := addU64 c.sum_pre x.sum_pre }

/-- Effect of `checker.count_pre = this->count_pre; checker.sum_pre =
this->sum_pre;` (checker.hpp, lines 87-88) on checker `x` reading caller
`c`. -/
def Checker.writePre (x c : Checker) : Checker :=
  { x with count_pre := c.count_pre, sum_pre := c.sum_pre }

/-- One iteration of the first `std::for_each` of `Checker::combine_pre`
(checker.hpp, lines 82-85): the caller at index `s` of memory `m`
accumulates the checker at index `i` (which may alias the caller). -/
def Checker.combinePreRead (s : Nat) (m : List Checker) (i : Nat) : List Checker :=
  m.set s (Checker.readUpdPre (m.getD s Checker.d0) (m.getD i Checker.d0))

/-- One iteration of the second `std::for_each` of `Checker::combine_pre`
(checker.hpp, lines 86-89): the checker at index `i` is overwritten with the
caller's totals. -/
def Checker.combinePreWrite (s : Nat) (m : List Checker) (i : Nat) : List Checker :=
  m.set i (Checker.writePre (m.getD i Checker.d0) (m.getD s Checker.d0))

/-- `Checker::combine_pre` (checker.hpp, lines 81-90) over memory `m`: the
caller is `m[s]`, the iterator range `[begin, end)` is the cells `[0, r)`. -/
def Checker.combine_pre (m : List Checker) (s r : Nat) : List Checker :=
  let m1 := (List.range r).foldl (Checker.combinePreRead s) m
  (List.range r).foldl (Checker.combinePreWrite s) m1

/-- Post-channel analogue of `Checker.readUpdPre` (checker.hpp, lines
94-95). -/
def Checker.readUpdPost (c x : Checker) : Checker :=
  { c with count_post := addU64 c.count_post x.count_post,
           sum_post := addU64 c.sum_post x.sum_post }

/-- Post-channel analogue of `Checker.writePre` (checker.hpp, lines
98-99). -/
def Checker.writePost (x c : Checker) : Checker :=
  { x with count_post := c.count_post, sum_post := c.sum_post }

/-- One iteration of the first loop of `Checker::combine_post`
(checker.hpp, lines 93-96). -/
def Checker.combinePostRead (s : Nat) (m : List Checker) (i : Nat) : List Checker :=
  m.set s (Checker.readUpdPost (m.getD s Checker.d0) (m.getD i Checker.d0))

/-- One iteration of the second loop of `Checker::combine_post`
(checker.hpp, lines 97-100). -/
def Checker.combinePostWrite (s : Nat) (m : List Checker) (i : Nat) : List Checker :=
  m.set i (Checker.writePost (m.getD i Checker.d0) (m.getD s Checker.d0))

/-- `Checker::combine_post` (checker.hpp, lines 92-101). -/
def Checker.combine_post (m : List Checker) (s r : Nat) : List Checker :=
  let m1 := (List.range r).foldl (Checker.combinePostRead s) m
  (List.range r).foldl (Checker.combinePostWrite s) m1

/-- Feeding a whole list of elements through `Checker::add_pre`. -/
def Checker.feedPre {α : Type} (hash : α → Nat) (xs : List α) (c : Checker) : Checker :=
  xs.foldl (fun c v => Checker.add_pre hash v c) c

/-- Feeding a whole list of elements through `Checker::add_post`. -/
def Checker.feedPost {α : Type} (hash : α → Nat) (xs : List α) (c : Checker) : Checker :=
  xs.foldl (fun c v => Checker.add_post hash v c) c

/-! ## `checker::SortChecker` (sort_checker.hpp) -/

/-- State of `checker::SortChecker` (sort_checker.hpp, lines 40-214):
counts and wrapping hash sums of the two streams, plus the local order
tracking fields. -/
structure SortChecker (α : Type) where
  count_pre : Nat
  count_post : Nat
  sum_pre : Nat
  sum_post : Nat
  post_added : Bool
  post_left : α
  post_right : α
  sorted_locally : Bool
deriving DecidableEq

/-- The state established by the constructor / `reset` (sort_checker.hpp,
lines 47-60); `T{}` is modelled by `default`. -/
def SortChecker.init {α : Type} [Inhabited α] : SortChecker α :=
  { count_pre := 0, count_post := 0, sum_pre := 0, sum_post := 0,
    post_added := false, post_left := default, post_right := default,
    sorted_locally := true }

/-- `SortChecker::reset` (sort_checker.hpp, lines 51-60). -/
def SortChecker.reset {α : Type} [Inhabited α] (_ : SortChecker α) : SortChecker α :=
  SortChecker.init

/-- `SortChecker::add_pre` (sort_checker.hpp, lines 67-71). -/
def SortChecker.add_pre {α : Type} (hash : α → Nat) (v : α) (s : SortChecker α) :
    SortChecker α :=
  { s with sum_pre := addU64 s.sum_pre (hash v), count_pre := addU64 s.count_pre 1 }

/-- `SortChecker::add_post` (sort_checker.hpp, lines 79-92): update the
post count/sum, then either record the first post element or check it
against the previous one, and finally set `post_right` to `v`. -/
def SortChecker.add_post {α : Type} (hash : α → Nat) (comp : α → α → Bool) (v : α)
    (s : SortChecker α) : SortChecker α :=
  let s1 := { s with sum_post := addU64 s.sum_post (hash v),
                     count_post := addU64 s.count_post 1 }
  let s2 :=
    if !s1.post_added then
      { s1 with post_left := v, post_added := true }
    else
      { s1 with sorted_locally := s1.sorted_locally && !comp v s1.post_right }
  { s2 with post_right := v }

/-- `SortChecker::is_likely_permuted` on a single accumulator
(sort_checker.hpp, lines 102-104). -/
def SortChecker.is_likely_permuted {α : Type} (s : SortChecker α) : Bool :=
  (s.count_pre == s.count_post) && (s.sum_pre == s.sum_post)

/-- `SortChecker::is_likely_sorted` on a single accumulator
(sort_checker.hpp, lines 114-116). -/
def SortChecker.is_likely_sorted {α : Type} (s : SortChecker α) : Bool :=
  s.is_likely_permuted && s.sorted_locally

/-- Aggregation loop of the static `SortChecker::is_likely_permuted(begin,
end)` (sort_checker.hpp, lines 136-146), with the final comparison; the
accumulator variables are `cpre, spre, cpost, spost` in declaration order.
The traversed list is returned unchanged alongside the verdict, making the
read-only access pattern of the C++ loop explicit. -/
def SortChecker.permGroupRun {α : Type} :
    List (SortChecker α) → Nat × Nat × Nat × Nat → Bool × List (SortChecker α)
  | [], (cpre, spre, cpost, spost) => ((cpre == cpost) && (spost == spre), [])
  | c :: rest, (cpre, spre, cpost, spost) =>
    let acc := (addU64 cpre c.count_pre, addU64 spre c.sum_pre,
                addU64 cpost c.count_post, addU64 spost c.sum_post)
    let br := SortChecker.permGroupRun rest acc
    (br.1, c :: br.2)

/-- The static `SortChecker::is_likely_permuted(begin, end)`
(sort_checker.hpp, lines 133-147). -/
def SortChecker.is_likely_permuted_group {α : Type} (l : List (SortChecker α)) : Bool :=
  (SortChecker.permGroupRun l (0, 0, 0, 0)).1

/-- Loop `succ &= it->sorted_locally` of the static
`SortChecker::is_likely_sorted` (sort_checker.hpp, lines 176-178), again
returning the (unmodified) traversed list. -/
def SortChecker.allSortedRun {α : Type} (succ : Bool) :
    List (SortChecker α) → Bool × List (SortChecker α)
  | [] => (succ, [])
  | c :: rest =>
    let br := SortChecker.allSortedRun (succ && c.sorted_locally) rest
    (br.1, c :: br.2)

/-- The `while (next != end)` walk of the static
`SortChecker::is_likely_sorted` (sort_checker.hpp, lines 186-195): `curr`
is the most recent checker with `post_added`; each further checker with
`post_added` is compared against it via `succ &= !comp(next->post_left,
curr->post_right)`, checkers without post elements are skipped
(`std::find_if`). -/
def SortChecker.boundaryGoRun {α : Type} (comp : α → α → Bool) (succ : Bool)
    (curr : SortChecker α) : List (SortChecker α) → Bool × List (SortChecker α)
  | [] => (succ, [])
  | c :: rest =>
    if c.post_added then
      let br := SortChecker.boundaryGoRun comp (succ && !comp c.post_left curr.post_right) c rest
      (br.1, c :: br.2)
    else
      let br := SortChecker.boundaryGoRun comp succ curr rest
      (br.1, c :: br.2)

/-- The initial `std::find_if(begin, end, ...)` of the static
`SortChecker::is_likely_sorted` (sort_checker.hpp, lines 183-196): skip
checkers without post elements, then enter the boundary walk. -/
def SortChecker.boundaryRun {α : Type} (comp : α → α → Bool) (succ : Bool) :
    List (SortChecker α) → Bool × List (SortChecker α)
  | [] => (succ, [])
  | c :: rest =>
    if c.post_added then
      let br := SortChecker.boundaryGoRun comp succ c rest
      (br.1, c :: br.2)
    else
      let br := SortChecker.boundaryRun comp succ rest
      (br.1, c :: br.2)

/-- The static `SortChecker::is_likely_sorted(begin, end, comp)`
(sort_checker.hpp, lines 168-199) with the traversed range threaded
through all three phases. -/
def SortChecker.sortedGroupRun {α : Type} (comp : α → α → Bool)
    (l : List (SortChecker α)) : Bool × List (SortChecker α) :=
  let p := SortChecker.permGroupRun l (0, 0, 0, 0)
  let a := SortChecker.allSortedRun p.1 p.2
  SortChecker.boundaryRun comp a.1 a.2

/-- Verdict of the static `SortChecker::is_likely_sorted(begin, end, comp)`
(sort_checker.hpp, lines 168-199). -/
def SortChecker.is_likely_sorted_group {α : Type} (comp : α → α → Bool)
    (l : List (SortChecker α)) : Bool :=
  (SortChecker.sortedGroupRun comp l).1

/-- Feeding a whole list of elements through `SortChecker::add_pre`. -/
def SortChecker.feedPre {α : Type} (hash : α → Nat) (xs : List α)
    (s : SortChecker α) : SortChecker α :=
  xs.foldl (fun s v => SortChecker.add_pre hash v s) s

/-- Feeding a whole list of elements through `SortChecker::add_post`. -/
def SortChecker.feedPost {α : Type} (hash : α → Nat) (comp : α → α → Bool)
    (xs : List α) (s : SortChecker α) : SortChecker α :=
  xs.foldl (fun s v => SortChecker.add_post hash comp v s) s

/-- A single call against a `SortChecker`: either `add_pre v`, or
`add_post v comp` with its own comparator. -/
inductive SCOp (α : Type) where
  | pre (v : α)
  | post (v : α) (comp : α → α → Bool)

/-- Apply one call to a `SortChecker` state. -/
def SortChecker.applyOp {α : Type} (hash : α → Nat) (s : SortChecker α) :
    SCOp α → SortChecker α
  | .pre v => SortChecker.add_pre hash v s
  | .post v comp => SortChecker.add_post hash comp v s

/-- Run a sequence of calls against a `SortChecker` state. -/
def SortChecker.runOps {α : Type} (hash : α → Nat) (ops : List (SCOp α))
    (s : SortChecker α) : SortChecker α :=
  ops.foldl (SortChecker.applyOp hash) s

/-! ## Arithmetic helpers -/

theorem addU64_mod_left (a b : Nat) : addU64 (a % u64Mod) b = addU64 a b := by
  simp [addU64, Nat.mod_add_mod]

theorem mod_lt_u64 (a : Nat) : a % u64Mod < u64Mod := Nat.mod_lt _ u64Mod_pos

/-- Summing a list of residues modulo `2 ^ 64` agrees with summing the raw
values, up to a final reduction. -/
theorem sum_map_mod (ns : List Nat) :
    (ns.map (fun n => n % u64Mod)).sum % u64Mod = ns.sum % u64Mod := by
  induction ns with
  | nil => rfl
  | cons n ns ih =>
    simp only [List.map_cons, List.sum_cons, u64Mod] at *
    omega

/-! ## Stream lemmas for `SortChecker` -/

theorem SortChecker.feedPre_count {α : Type} (hash : α → Nat) (xs : List α) :
    ∀ s : SortChecker α, s.count_pre < u64Mod →
      (SortChecker.feedPre hash xs s).count_pre = (s.count_pre + xs.length) % u64Mod := by
  induction xs with
  | nil =>
    intro s h1
    simp [SortChecker.feedPre, Nat.mod_eq_of_lt h1]
  | cons v xs ih =>
    intro s h1
    show (SortChecker.feedPre hash xs (SortChecker.add_pre hash v s)).count_pre = _
    rw [ih _ (addU64_lt _ _)]
    simp only [SortChecker.add_pre, addU64, List.length_cons, u64Mod]
    omega

theorem SortChecker.feedPre_sum {α : Type} (hash : α → Nat) (xs : List α) :
    ∀ s : SortChecker α, s.sum_pre < u64Mod →
      (SortChecker.feedPre hash xs s).sum_pre = (s.sum_pre + (xs.map hash).sum) % u64Mod := by
  induction xs with
  | nil =>
    intro s h1
    simp [SortChecker.feedPre, Nat.mod_eq_of_lt h1]
  | cons v xs ih =>
    intro s h1
    show (SortChecker.feedPre hash xs (SortChecker.add_pre hash v s)).sum_pre = _
    rw [ih _ (addU64_lt _ _)]
    simp only [SortChecker.add_pre, addU64, List.map_cons, List.sum_cons, u64Mod]
    omega

theorem SortChecker.feedPre_rest {α : Type} (hash : α → Nat) (xs : List α) :
    ∀ s : SortChecker α,
      (SortChecker.feedPre hash xs s).count_post = s.count_post ∧
      (SortChecker.feedPre hash xs s).sum_post = s.sum_post ∧
      (SortChecker.feedPre hash xs s).post_added = s.post_added ∧
      (SortChecker.feedPre hash xs s).post_left = s.post_left ∧
      (SortChecker.feedPre hash xs s).post_right = s.post_right ∧
      (SortChecker.feedPre hash xs s).sorted_locally = s.sorted_locally := by
  induction xs with
  | nil => intro s; exact ⟨rfl, rfl, rfl, rfl, rfl, rfl⟩
  | cons v xs ih =>
    intro s
    exact ih (SortChecker.add_pre hash v s)

theorem SortChecker.feedPost_count {α : Type} (hash : α → Nat) (comp : α → α → Bool)
    (xs : List α) :
    ∀ s : SortChecker α, s.count_post < u64Mod →
      (SortChecker.feedPost hash comp xs s).count_post =
        (s.count_post + xs.length) % u64Mod := by
  induction xs with
  | nil =>
    intro s h1
    simp [SortChecker.feedPost, Nat.mod_eq_of_lt h1]
  | cons v xs ih =>
    intro s h1
    show (SortChecker.feedPost hash comp xs (SortChecker.add_post hash comp v s)).count_post = _
    have hc : (SortChecker.add_post hash comp v s).count_post = addU64 s.count_post 1 := by
      simp only [SortChecker.add_post]
      split <;> rfl
    rw [ih _ (by rw [hc]; exact addU64_lt _ _), hc]
    simp only [addU64, List.length_cons, u64Mod]
    omega

theorem SortChecker.feedPost_sum {α : Type} (hash : α → Nat) (comp : α → α → Bool)
    (xs : List α) :
    ∀ s : SortChecker α, s.sum_post < u64Mod →
      (SortChecker.feedPost hash comp xs s).sum_post =
        (s.sum_post + (xs.map hash).sum) % u64Mod := by
  induction xs with
  | nil =>
    intro s h1
    simp [SortChecker.feedPost, Nat.mod_eq_of_lt h1]
  | cons v xs ih =>
    intro s h1
    show (SortChecker.feedPost hash comp xs (SortChecker.add_post hash comp v s)).sum_post = _
    have hc : (SortChecker.add_post hash comp v s).sum_post = addU64 s.sum_post (hash v) := by
      simp only [SortChecker.add_post]
      split <;> rfl
    rw [ih _ (by rw [hc]; exact addU64_lt _ _), hc]
    simp only [addU64, List.map_cons, List.sum_cons, u64Mod]
    omega

theorem SortChecker.feedPost_pre {α : Type} (hash : α → Nat) (comp : α → α → Bool)
    (xs : List α) :
    ∀ s : SortChecker α,
      (SortChecker.feedPost hash comp xs s).count_pre = s.count_pre ∧
      (SortChecker.feedPost hash comp xs s).sum_pre = s.sum_pre := by
  induction xs with
  | nil => intro s; exact ⟨rfl, rfl⟩
  | cons v xs ih =>
    intro s
    have h := ih (SortChecker.add_post hash comp v s)
    have hc : (SortChecker.add_post hash comp v s).count_pre = s.count_pre := by
      simp only [SortChecker.add_post]
      split <;> rfl
    have hs : (SortChecker.add_post hash comp v s).sum_pre = s.sum_pre := by
      simp only [SortChecker.add_post]
      split <;> rfl
    constructor
    · show (SortChecker.feedPost hash comp xs (SortChecker.add_post hash comp v s)).count_pre = _
      rw [h.1, hc]
    · show (SortChecker.feedPost hash comp xs (SortChecker.add_post hash comp v s)).sum_pre = _
      rw [h.2, hs]

/-! ## `add_post` case lemmas -/

theorem SortChecker.add_post_added_true {α : Type} (hash : α → Nat) (comp : α → α → Bool)
    (v : α) (s : SortChecker α) (h : s.post_added = true) :
    SortChecker.add_post hash comp v s =
      { s with sum_post := addU64 s.sum_post (hash v),
               count_post := addU64 s.count_post 1,
               sorted_locally := s.sorted_locally && !comp v s.post_right,
               post_right := v } := by
  simp [SortChecker.add_post, h]

theorem SortChecker.add_post_added_false {α : Type} (hash : α → Nat) (comp : α → α → Bool)
    (v : α) (s : SortChecker α) (h : s.post_added = false) :
    SortChecker.add_post hash comp v s =
      { s with sum_post := addU64 s.sum_post (hash v),
               count_post := addU64 s.count_post 1,
               post_left := v, post_added := true, post_right := v } := by
  simp [SortChecker.add_post, h]

theorem SortChecker.add_post_post_added {α : Type} (hash : α → Nat) (comp : α → α → Bool)
    (v : α) (s : SortChecker α) :
    (SortChecker.add_post hash comp v s).post_added = true := by
  cases h : s.post_added
  · rw [SortChecker.add_post_added_false hash comp v s h]
  · rw [SortChecker.add_post_added_true hash comp v s h]
    exact h

/-! ## Local sortedness after a post stream -/

theorem SortChecker.feedPost_sorted_added {α : Type} (hash : α → Nat)
    (comp : α → α → Bool) (xs : List α) :
    ∀ s : SortChecker α, s.post_added = true →
      ((SortChecker.feedPost hash comp xs s).sorted_locally = true ↔
        (s.sorted_locally = true ∧
          List.Chain (fun a b => comp b a = false) s.post_right xs)) := by
  induction xs with
  | nil =>
    intro s h
    simp [SortChecker.feedPost]
  | cons v xs ih =>
    intro s h
    show (SortChecker.feedPost hash comp xs (SortChecker.add_post hash comp v s)).sorted_locally
        = true ↔ _
    rw [SortChecker.add_post_added_true hash comp v s h]
    rw [ih _ (by exact h)]
    simp only [List.chain_cons, Bool.and_eq_true, Bool.not_eq_true']
    tauto

theorem SortChecker.feedPost_sorted_fresh {α : Type} (hash : α → Nat)
    (comp : α → α → Bool) (xs : List α) (s : SortChecker α)
    (h : s.post_added = false) (hs : s.sorted_locally = true) :
    ((SortChecker.feedPost hash comp xs s).sorted_locally = true ↔
      List.Chain' (fun a b => comp b a = false) xs) := by
  cases xs with
  | nil =>
    simp [SortChecker.feedPost, hs]
  | cons v xs =>
    show (SortChecker.feedPost hash comp xs (SortChecker.add_post hash comp v s)).sorted_locally
        = true ↔ _
    rw [SortChecker.add_post_added_false hash comp v s h]
    rw [SortChecker.feedPost_sorted_added hash comp xs _ rfl]
    simp [hs]
    exact Iff.rfl

/-! ## Stream lemmas for `Checker` -/

theorem Checker.chkFeedPre_count {α : Type} (hash : α → Nat) (xs : List α) :
    ∀ c : Checker, c.count_pre < u64Mod →
      (Checker.feedPre hash xs c).count_pre = (c.count_pre + xs.length) % u64Mod := by
  induction xs with
  | nil =>
    intro c h1
    simp [Checker.feedPre, Nat.mod_eq_of_lt h1]
  | cons v xs ih =>
    intro c h1
    show (Checker.feedPre hash xs (Checker.add_pre hash v c)).count_pre = _
    rw [ih _ (addU64_lt _ _)]
    simp only [Checker.add_pre, addU64, List.length_cons, u64Mod]
    omega

theorem Checker.chkFeedPre_sum {α : Type} (hash : α → Nat) (xs : List α) :
    ∀ c : Checker, c.sum_pre < u64Mod →
      (Checker.feedPre hash xs c).sum_pre = (c.sum_pre + (xs.map hash).sum) % u64Mod := by
  induction xs with
  | nil =>
    intro c h1
    simp [Checker.feedPre, Nat.mod_eq_of_lt h1]
  | cons v xs ih =>
    intro c h1
    show (Checker.feedPre hash xs (Checker.add_pre hash v c)).sum_pre = _
    rw [ih _ (addU64_lt _ _)]
    simp only [Checker.add_pre, addU64, List.map_cons, List.sum_cons, u64Mod]
    omega

theorem Checker.feedPre_post {α : Type} (hash : α → Nat) (xs : List α) :
    ∀ c : Checker,
      (Checker.feedPre hash xs c).count_post = c.count_post ∧
      (Checker.feedPre hash xs c).sum_post = c.sum_post := by
  induction xs with
  | nil => intro c; exact ⟨rfl, rfl⟩
  | cons v xs ih => intro c; exact ih (Checker.add_pre hash v c)

theorem Checker.chkFeedPost_count {α : Type} (hash : α → Nat) (xs : List α) :
    ∀ c : Checker, c.count_post < u64Mod →
      (Checker.feedPost hash xs c).count_post = (c.count_post + xs.length) % u64Mod := by
  induction xs with
  | nil =>
    intro c h1
    simp [Checker.feedPost, Nat.mod_eq_of_lt h1]
  | cons v xs ih =>
    intro c h1
    show (Checker.feedPost hash xs (Checker.add_post hash v c)).count_post = _
    rw [ih _ (addU64_lt _ _)]
    simp only [Checker.add_post, addU64, List.length_cons, u64Mod]
    omega

theorem Checker.chkFeedPost_sum {α : Type} (hash : α → Nat) (xs : List α) :
    ∀ c : Checker, c.sum_post < u64Mod →
      (Checker.feedPost hash xs c).sum_post = (c.sum_post + (xs.map hash).sum) % u64Mod := by
  induction xs with
  | nil =>
    intro c h1
    simp [Checker.feedPost, Nat.mod_eq_of_lt h1]
  | cons v xs ih =>
    intro c h1
    show (Checker.feedPost hash xs (Checker.add_post hash v c)).sum_post = _
    rw [ih _ (addU64_lt _ _)]
    simp only [Checker.add_post, addU64, List.map_cons, List.sum_cons, u64Mod]
    omega

theorem Checker.chkFeedPost_pre {α : Type} (hash : α → Nat) (xs : List α) :
    ∀ c : Checker,
      (Checker.feedPost hash xs c).count_pre = c.count_pre ∧
      (Checker.feedPost hash xs c).sum_pre = c.sum_pre := by
  induction xs with
  | nil => intro c; exact ⟨rfl, rfl⟩
  | cons v xs ih => intro c; exact ih (Checker.add_post hash v c)

/-! ## Claims C3, C5, C6, C10 -/

/-- C3: after a reset accumulator is fed a multiset as the pre stream and the
same multiset in any order as the post stream, both
`Checker::is_likely_permutation` and the single-accumulator
`SortChecker::is_likely_permuted` return true: the permutation check has no
false negatives. -/
theorem C3_no_false_negative_permutation {α : Type} [Inhabited α] (hash : α → Nat)
    (comp : α → α → Bool) (pre post : List α) (hperm : pre.Perm post) :
    Checker.is_likely_permutation
        (Checker.feedPost hash post (Checker.feedPre hash pre Checker.init)) = true ∧
    SortChecker.is_likely_permuted
        (SortChecker.feedPost hash comp post
          (SortChecker.feedPre hash pre SortChecker.init)) = true := by
  have hlen : pre.length = post.length := hperm.length_eq
  have hsum : (pre.map hash).sum = (post.map hash).sum := (hperm.map hash).sum_eq
  constructor
  · have h1 := Checker.chkFeedPre_count hash pre Checker.init (by decide)
    have h2 := Checker.chkFeedPre_sum hash pre Checker.init (by decide)
    have h3 := Checker.feedPre_post hash pre Checker.init
    have h4 := Checker.chkFeedPost_count hash post (Checker.feedPre hash pre Checker.init)
      (by rw [h3.1]; decide)
    have h5 := Checker.chkFeedPost_sum hash post (Checker.feedPre hash pre Checker.init)
      (by rw [h3.2]; decide)
    have h6 := Checker.chkFeedPost_pre hash post (Checker.feedPre hash pre Checker.init)
    have e1 : (Checker.feedPost hash post (Checker.feedPre hash pre Checker.init)).count_pre
        = pre.length % u64Mod := by rw [h6.1, h1]; simp [Checker.init]
    have e2 : (Checker.feedPost hash post (Checker.feedPre hash pre Checker.init)).count_post
        = post.length % u64Mod := by rw [h4, h3.1]; simp [Checker.init]
    have e3 : (Checker.feedPost hash post (Checker.feedPre hash pre Checker.init)).sum_pre
        = (pre.map hash).sum % u64Mod := by rw [h6.2, h2]; simp [Checker.init]
    have e4 : (Checker.feedPost hash post (Checker.feedPre hash pre Checker.init)).sum_post
        = (post.map hash).sum % u64Mod := by rw [h5, h3.2]; simp [Checker.init]
    simp [Checker.is_likely_permutation, e1, e2, e3, e4, hlen, hsum]
  · have h1 := SortChecker.feedPre_count hash pre (SortChecker.init (α := α))
      (by show (0 : Nat) < u64Mod; decide)
    have h2 := SortChecker.feedPre_sum hash pre (SortChecker.init (α := α))
      (by show (0 : Nat) < u64Mod; decide)
    have h3 := SortChecker.feedPre_rest hash pre (SortChecker.init (α := α))
    have h4 := SortChecker.feedPost_count hash comp post
      (SortChecker.feedPre hash pre SortChecker.init)
      (by rw [h3.1]; show (0 : Nat) < u64Mod; decide)
    have h5 := SortChecker.feedPost_sum hash comp post
      (SortChecker.feedPre hash pre SortChecker.init)
      (by rw [h3.2.1]; show (0 : Nat) < u64Mod; decide)
    have h6 := SortChecker.feedPost_pre hash comp post
      (SortChecker.feedPre hash pre SortChecker.init)
    have e1 : (SortChecker.feedPost hash comp post
        (SortChecker.feedPre hash pre SortChecker.init)).count_pre
        = pre.length % u64Mod := by rw [h6.1, h1]; simp [SortChecker.init]
    have e2 : (SortChecker.feedPost hash comp post
        (SortChecker.feedPre hash pre SortChecker.init)).count_post
        = post.length % u64Mod := by rw [h4, h3.1]; simp [SortChecker.init]
    have e3 : (SortChecker.feedPost hash comp post
        (SortChecker.feedPre hash pre SortChecker.init)).sum_pre
        = (pre.map hash).sum % u64Mod := by rw [h6.2, h2]; simp [SortChecker.init]
    have e4 : (SortChecker.feedPost hash comp post
        (SortChecker.feedPre hash pre SortChecker.init)).sum_post
        = (post.map hash).sum % u64Mod := by rw [h5, h3.2.1]; simp [SortChecker.init]
    simp [SortChecker.is_likely_permuted, e1, e2, e3, e4, hlen, hsum]

/-- Witness for C3 at a concrete permutation. -/
theorem C3_no_false_negative_permutation_witness :
    ([1, 2, 2] : List Nat).Perm [2, 1, 2] ∧
    SortChecker.is_likely_permuted
      (SortChecker.feedPost (fun n : Nat => n) (fun a b => decide (a < b)) [2, 1, 2]
        (SortChecker.feedPre (fun n : Nat => n) [1, 2, 2] SortChecker.init)) = true :=
  ⟨by decide,
   (C3_no_false_negative_permutation (fun n : Nat => n) (fun a b => decide (a < b))
      [1, 2, 2] [2, 1, 2] (by decide)).2⟩

/-- C5: `SortChecker::add_post` always updates the post count and hash sum and
sets `post_right` to the new element last; on the first post element it
records `post_left`, marks `post_added`, leaves `sorted_locally` untouched and
does not consult the comparator at all; on later elements it conjoins
`!comp(v, post_right)` into `sorted_locally`. -/
theorem C5_add_post_step {α : Type} (hash : α → Nat) (comp comp2 : α → α → Bool)
    (v : α) (s : SortChecker α) :
    (SortChecker.add_post hash comp v s).post_right = v ∧
    (SortChecker.add_post hash comp v s).count_post = addU64 s.count_post 1 ∧
    (SortChecker.add_post hash comp v s).sum_post = addU64 s.sum_post (hash v) ∧
    (s.post_added = false →
      (SortChecker.add_post hash comp v s).post_left = v ∧
      (SortChecker.add_post hash comp v s).post_added = true ∧
      (SortChecker.add_post hash comp v s).sorted_locally = s.sorted_locally ∧
      SortChecker.add_post hash comp v s = SortChecker.add_post hash comp2 v s) ∧
    (s.post_added = true →
      (SortChecker.add_post hash comp v s).sorted_locally =
        (s.sorted_locally && !comp v s.post_right)) := by
  refine ⟨?_, ?_, ?_, ?_, ?_⟩
  · cases h : s.post_added
    · rw [SortChecker.add_post_added_false hash comp v s h]
    · rw [SortChecker.add_post_added_true hash comp v s h]
  · cases h : s.post_added
    · rw [SortChecker.add_post_added_false hash comp v s h]
    · rw [SortChecker.add_post_added_true hash comp v s h]
  · cases h : s.post_added
    · rw [SortChecker.add_post_added_false hash comp v s h]
    · rw [SortChecker.add_post_added_true hash comp v s h]
  · intro h
    rw [SortChecker.add_post_added_false hash comp v s h,
        SortChecker.add_post_added_false hash comp2 v s h]
    exact ⟨rfl, rfl, rfl, rfl⟩
  · intro h
    rw [SortChecker.add_post_added_true hash comp v s h]

/-- Witness for C5: the first post element becomes both boundary values. -/
theorem C5_add_post_step_witness :
    (SortChecker.add_post (fun n : Nat => n) (fun a b => decide (a < b)) 5
      SortChecker.init).post_left = 5 ∧
    (SortChecker.add_post (fun n : Nat => n) (fun a b => decide (a < b)) 5
      SortChecker.init).post_right = 5 :=
  ⟨((C5_add_post_step (fun n : Nat => n) (fun a b => decide (a < b))
      (fun a b => decide (b < a)) 5 SortChecker.init).2.2.2.1 rfl).1,
   (C5_add_post_step (fun n : Nat => n) (fun a b => decide (a < b))
      (fun a b => decide (b < a)) 5 SortChecker.init).1⟩

/-- C6: once `sorted_locally` is false it stays false under any further
`add_pre` or `add_post` call, with any element and comparator; `reset`
restores it to true. -/
theorem C6_sorted_locally_monotone {α : Type} [Inhabited α] (hash : α → Nat)
    (comp : α → α → Bool) (v : α) (s : SortChecker α)
    (h : s.sorted_locally = false) :
    (SortChecker.add_pre hash v s).sorted_locally = false ∧
    (SortChecker.add_post hash comp v s).sorted_locally = false ∧
    (SortChecker.reset s).sorted_locally = true := by
  refine ⟨h, ?_, rfl⟩
  cases hp : s.post_added
  · rw [SortChecker.add_post_added_false hash comp v s hp]
    exact h
  · rw [SortChecker.add_post_added_true hash comp v s hp]
    simp [h]

/-- Witness for C6 at a state with `sorted_locally = false`. -/
theorem C6_sorted_locally_monotone_witness :
    (SortChecker.add_pre (fun n : Nat => n) 7
      { count_pre := 0, count_post := 0, sum_pre := 0, sum_post := 0,
        post_added := true, post_left := 0, post_right := 0,
        sorted_locally := false }).sorted_locally = false :=
  (C6_sorted_locally_monotone (fun n : Nat => n) (fun a b => decide (a < b)) 7 _ rfl).1

/-- Helper for C10: one call preserves the "never saw a post element"
invariant. -/
theorem SortChecker.applyOp_no_post {α : Type} [Inhabited α] (hash : α → Nat)
    (op : SCOp α) (s : SortChecker α)
    (ih : s.post_added = false → s.sorted_locally = true ∧ s.count_post = 0 ∧
      s.sum_post = 0 ∧ s.post_left = (default : α) ∧ s.post_right = default) :
    (SortChecker.applyOp hash s op).post_added = false →
      (SortChecker.applyOp hash s op).sorted_locally = true ∧
      (SortChecker.applyOp hash s op).count_post = 0 ∧
      (SortChecker.applyOp hash s op).sum_post = 0 ∧
      (SortChecker.applyOp hash s op).post_left = (default : α) ∧
      (SortChecker.applyOp hash s op).post_right = default := by
  cases op with
  | pre v => intro h; exact ih h
  | post v comp =>
    intro h
    rw [show SortChecker.applyOp hash s (SCOp.post v comp)
          = SortChecker.add_post hash comp v s from rfl,
        SortChecker.add_post_post_added hash comp v s] at h
    cases h

/-- Helper for C10: the invariant holds along any run. -/
theorem SortChecker.runOps_no_post {α : Type} [Inhabited α] (hash : α → Nat)
    (ops : List (SCOp α)) :
    ∀ s : SortChecker α,
      (s.post_added = false → s.sorted_locally = true ∧ s.count_post = 0 ∧
        s.sum_post = 0 ∧ s.post_left = (default : α) ∧ s.post_right = default) →
      ((SortChecker.runOps hash ops s).post_added = false →
        (SortChecker.runOps hash ops s).sorted_locally = true ∧
        (SortChecker.runOps hash ops s).count_post = 0 ∧
        (SortChecker.runOps hash ops s).sum_post = 0 ∧
        (SortChecker.runOps hash ops s).post_left = (default : α) ∧
        (SortChecker.runOps hash ops s).post_right = default) := by
  induction ops with
  | nil => intro s ih; exact ih
  | cons op ops ihl =>
    intro s ih
    exact ihl (SortChecker.applyOp hash s op) (SortChecker.applyOp_no_post hash op s ih)

/-- C10: in every state reachable from `reset` by `add_pre` / `add_post`
calls, `post_added = false` implies `sorted_locally = true`, zero post count
and sum, and default boundary values, so an accumulator that never saw a post
element cannot make the group sortedness conjunction fail. -/
theorem C10_no_post_invariant {α : Type} [Inhabited α] (hash : α → Nat)
    (ops : List (SCOp α))
    (h : (SortChecker.runOps hash ops SortChecker.init).post_added = false) :
    (SortChecker.runOps hash ops SortChecker.init).sorted_locally = true ∧
    (SortChecker.runOps hash ops SortChecker.init).count_post = 0 ∧
    (SortChecker.runOps hash ops SortChecker.init).sum_post = 0 ∧
    (SortChecker.runOps hash ops SortChecker.init).post_left = (default : α) ∧
    (SortChecker.runOps hash ops SortChecker.init).post_right = default :=
  SortChecker.runOps_no_post hash ops SortChecker.init
    (fun _ => ⟨rfl, rfl, rfl, rfl, rfl⟩) h

/-- Witness for C10 at a run that only ever adds pre elements. -/
theorem C10_no_post_invariant_witness :
    (SortChecker.runOps (fun n : Nat => n) [SCOp.pre 3, SCOp.pre 4]
      SortChecker.init).post_added = false ∧
    (SortChecker.runOps (fun n : Nat => n) [SCOp.pre 3, SCOp.pre 4]
      SortChecker.init).sorted_locally = true :=
  ⟨rfl, (C10_no_post_invariant (fun n : Nat => n) [SCOp.pre 3, SCOp.pre 4] rfl).1⟩

/-! ## Pure forms of the group checks -/

/-- Boolean computed by the aggregation loop of the static group
permutation check, starting from the given accumulator values. -/
def SortChecker.permGroupBool {α : Type} :
    List (SortChecker α) → Nat → Nat → Nat → Nat → Bool
  | [], cpre, spre, cpost, spost => (cpre == cpost) && (spost == spre)
  | c :: rest, cpre, spre, cpost, spost =>
    SortChecker.permGroupBool rest (addU64 cpre c.count_pre) (addU64 spre c.sum_pre)
      (addU64 cpost c.count_post) (addU64 spost c.sum_post)

/-- Boolean computed by the boundary walk once a current non-empty checker
is in hand. -/
def SortChecker.boundaryGo {α : Type} (comp : α → α → Bool) (curr : SortChecker α) :
    List (SortChecker α) → Bool
  | [] => true
  | c :: rest =>
    if c.post_added then
      (!comp c.post_left curr.post_right) && SortChecker.boundaryGo comp c rest
    else
      SortChecker.boundaryGo comp curr rest

/-- Boolean computed by the whole boundary-stitching phase. -/
def SortChecker.boundaryCheck {α : Type} (comp : α → α → Bool) :
    List (SortChecker α) → Bool
  | [] => true
  | c :: rest =>
    if c.post_added then SortChecker.boundaryGo comp c rest
    else SortChecker.boundaryCheck comp rest

theorem SortChecker.permGroupRun_eq {α : Type} (l : List (SortChecker α)) :
    ∀ acc : Nat × Nat × Nat × Nat,
      SortChecker.permGroupRun l acc =
        (SortChecker.permGroupBool l acc.1 acc.2.1 acc.2.2.1 acc.2.2.2, l) := by
  induction l with
  | nil => intro acc; obtain ⟨cpre, spre, cpost, spost⟩ := acc; rfl
  | cons c rest ih =>
    intro acc
    obtain ⟨cpre, spre, cpost, spost⟩ := acc
    simp [SortChecker.permGroupRun, SortChecker.permGroupBool, ih]

theorem SortChecker.allSortedRun_eq {α : Type} (l : List (SortChecker α)) :
    ∀ succ, SortChecker.allSortedRun succ l =
      (succ && l.all (fun c => c.sorted_locally), l) := by
  induction l with
  | nil => intro succ; simp [SortChecker.allSortedRun]
  | cons c rest ih =>
    intro succ
    simp [SortChecker.allSortedRun, ih, Bool.and_assoc]

theorem SortChecker.boundaryGoRun_eq {α : Type} (comp : α → α → Bool)
    (l : List (SortChecker α)) :
    ∀ succ curr, SortChecker.boundaryGoRun comp succ curr l =
      (succ && SortChecker.boundaryGo comp curr l, l) := by
  induction l with
  | nil => intro succ curr; simp [SortChecker.boundaryGoRun, SortChecker.boundaryGo]
  | cons c rest ih =>
    intro succ curr
    cases h : c.post_added
    · simp [SortChecker.boundaryGoRun, SortChecker.boundaryGo, h, ih]
    · simp [SortChecker.boundaryGoRun, SortChecker.boundaryGo, h, ih, Bool.and_assoc]

theorem SortChecker.boundaryRun_eq {α : Type} (comp : α → α → Bool)
    (l : List (SortChecker α)) :
    ∀ succ, SortChecker.boundaryRun comp succ l =
      (succ && SortChecker.boundaryCheck comp l, l) := by
  induction l with
  | nil => intro succ; simp [SortChecker.boundaryRun, SortChecker.boundaryCheck]
  | cons c rest ih =>
    intro succ
    cases h : c.post_added
    · simp [SortChecker.boundaryRun, SortChecker.boundaryCheck, h, ih]
    · simp [SortChecker.boundaryRun, SortChecker.boundaryCheck, h,
        SortChecker.boundaryGoRun_eq]

/-- The static group sortedness check decomposes into its three phases. -/
theorem SortChecker.sortedGroup_decompose {α : Type} (comp : α → α → Bool)
    (l : List (SortChecker α)) :
    SortChecker.is_likely_sorted_group comp l =
      (SortChecker.is_likely_permuted_group l &&
        l.all (fun c => c.sorted_locally) &&
        SortChecker.boundaryCheck comp l) := by
  simp [SortChecker.is_likely_sorted_group, SortChecker.sortedGroupRun,
    SortChecker.is_likely_permuted_group, SortChecker.permGroupRun_eq,
    SortChecker.allSortedRun_eq, SortChecker.boundaryRun_eq]

/-- The boundary walk from a current checker is the chain condition over the
non-empty checkers of the remaining list. -/
theorem SortChecker.boundaryGo_iff {α : Type} (comp : α → α → Bool)
    (l : List (SortChecker α)) :
    ∀ curr : SortChecker α,
      (SortChecker.boundaryGo comp curr l = true ↔
        List.Chain (fun c n => comp n.post_left c.post_right = false) curr
          (l.filter (fun c => c.post_added))) := by
  induction l with
  | nil => intro curr; simp [SortChecker.boundaryGo]
  | cons c rest ih =>
    intro curr
    cases h : c.post_added
    · simp [SortChecker.boundaryGo, h, List.filter_cons, ih curr]
    · simp [SortChecker.boundaryGo, h, List.filter_cons, List.chain_cons, ih c,
        Bool.not_eq_true']

/-- The boundary-stitching phase succeeds exactly when consecutive non-empty
checkers are compatible. -/
theorem SortChecker.boundaryCheck_iff {α : Type} (comp : α → α → Bool)
    (l : List (SortChecker α)) :
    SortChecker.boundaryCheck comp l = true ↔
      List.Chain' (fun c n => comp n.post_left c.post_right = false)
        (l.filter (fun c => c.post_added)) := by
  induction l with
  | nil => simp [SortChecker.boundaryCheck]
  | cons c rest ih =>
    cases h : c.post_added
    · simp [SortChecker.boundaryCheck, h, List.filter_cons, ih]
    · simp only [SortChecker.boundaryCheck, h, List.filter_cons, if_true]
      rw [SortChecker.boundaryGo_iff comp rest c]
      exact Iff.rfl

/-! ## Claims C1 and C8 -/

/-- C1: the static group `is_likely_sorted` is true exactly when the group
permutation check succeeds, every accumulator is locally sorted, and
consecutive non-empty accumulators (skipping those with `post_added = false`)
have compatible boundaries; the empty range yields true. -/
theorem C1_group_sorted_iff {α : Type} (comp : α → α → Bool)
    (l : List (SortChecker α)) :
    (SortChecker.is_likely_sorted_group comp l = true ↔
      (SortChecker.is_likely_permuted_group l = true ∧
        (∀ c ∈ l, c.sorted_locally = true) ∧
        List.Chain' (fun c n => comp n.post_left c.post_right = false)
          (l.filter (fun c => c.post_added)))) ∧
    SortChecker.is_likely_sorted_group comp ([] : List (SortChecker α)) = true := by
  constructor
  · rw [SortChecker.sortedGroup_decompose]
    simp only [Bool.and_eq_true, List.all_eq_true, SortChecker.boundaryCheck_iff]
    tauto
  · rfl

/-- C8: both static group checks traverse the range read-only: the threaded
list they return is the input list, for every range and comparator. -/
theorem C8_group_checks_read_only {α : Type} (comp : α → α → Bool)
    (l : List (SortChecker α)) :
    (SortChecker.permGroupRun l (0, 0, 0, 0)).2 = l ∧
    (SortChecker.sortedGroupRun comp l).2 = l := by
  constructor
  · rw [SortChecker.permGroupRun_eq]
  · simp [SortChecker.sortedGroupRun, SortChecker.permGroupRun_eq,
      SortChecker.allSortedRun_eq, SortChecker.boundaryRun_eq]

/-! ## Totals of the group permutation check -/

theorem beq_comm_nat (a b : Nat) : (a == b) = (b == a) := by
  by_cases h : a = b
  · simp [h]
  · simp [beq_iff_eq, h, Ne.symm h]

theorem SortChecker.permGroupBool_spec {α : Type} (l : List (SortChecker α)) :
    ∀ cpre spre cpost spost, cpre < u64Mod → spre < u64Mod → cpost < u64Mod →
      spost < u64Mod →
      SortChecker.permGroupBool l cpre spre cpost spost =
        (((cpre + (l.map (fun c => c.count_pre)).sum) % u64Mod
            == (cpost + (l.map (fun c => c.count_post)).sum) % u64Mod) &&
         ((spost + (l.map (fun c => c.sum_post)).sum) % u64Mod
            == (spre + (l.map (fun c => c.sum_pre)).sum) % u64Mod)) := by
  induction l with
  | nil =>
    intro cpre spre cpost spost h1 h2 h3 h4
    simp [SortChecker.permGroupBool, Nat.mod_eq_of_lt h1, Nat.mod_eq_of_lt h2,
      Nat.mod_eq_of_lt h3, Nat.mod_eq_of_lt h4]
  | cons c rest ih =>
    intro cpre spre cpost spost h1 h2 h3 h4
    rw [show SortChecker.permGroupBool (c :: rest) cpre spre cpost spost =
        SortChecker.permGroupBool rest (addU64 cpre c.count_pre) (addU64 spre c.sum_pre)
          (addU64 cpost c.count_post) (addU64 spost c.sum_post) from rfl]
    rw [ih _ _ _ _ (addU64_lt _ _) (addU64_lt _ _) (addU64_lt _ _) (addU64_lt _ _)]
    have e1 : (addU64 cpre c.count_pre + (rest.map (fun c => c.count_pre)).sum) % u64Mod
        = (cpre + ((c :: rest).map (fun c => c.count_pre)).sum) % u64Mod := by
      simp only [addU64, u64Mod, List.map_cons, List.sum_cons]
      omega
    have e2 : (addU64 cpost c.count_post + (rest.map (fun c => c.count_post)).sum) % u64Mod
        = (cpost + ((c :: rest).map (fun c => c.count_post)).sum) % u64Mod := by
      simp only [addU64, u64Mod, List.map_cons, List.sum_cons]
      omega
    have e3 : (addU64 spost c.sum_post + (rest.map (fun c => c.sum_post)).sum) % u64Mod
        = (spost + ((c :: rest).map (fun c => c.sum_post)).sum) % u64Mod := by
      simp only [addU64, u64Mod, List.map_cons, List.sum_cons]
      omega
    have e4 : (addU64 spre c.sum_pre + (rest.map (fun c => c.sum_pre)).sum) % u64Mod
        = (spre + ((c :: rest).map (fun c => c.sum_pre)).sum) % u64Mod := by
      simp only [addU64, u64Mod, List.map_cons, List.sum_cons]
      omega
    rw [e1, e2, e3, e4]

/-- The static group permutation check compares the summed totals of the
range, modulo `2 ^ 64`. -/
theorem SortChecker.permuted_group_spec {α : Type} (l : List (SortChecker α)) :
    SortChecker.is_likely_permuted_group l =
      (((l.map (fun c => c.count_pre)).sum % u64Mod
          == (l.map (fun c => c.count_post)).sum % u64Mod) &&
       ((l.map (fun c => c.sum_post)).sum % u64Mod
          == (l.map (fun c => c.sum_pre)).sum % u64Mod)) := by
  rw [SortChecker.is_likely_permuted_group, SortChecker.permGroupRun_eq]
  show SortChecker.permGroupBool l 0 0 0 0 = _
  rw [SortChecker.permGroupBool_spec l 0 0 0 0 (by decide) (by decide) (by decide)
    (by decide)]
  simp

/-- Field values of a single accumulator after a reset and a pre stream `p`
followed by a post stream `q`. -/
theorem SortChecker.feed_fields {α : Type} [Inhabited α] (hash : α → Nat)
    (comp : α → α → Bool) (p q : List α) :
    (SortChecker.feedPost hash comp q (SortChecker.feedPre hash p SortChecker.init)).count_pre
        = p.length % u64Mod ∧
    (SortChecker.feedPost hash comp q (SortChecker.feedPre hash p SortChecker.init)).sum_pre
        = (p.map hash).sum % u64Mod ∧
    (SortChecker.feedPost hash comp q (SortChecker.feedPre hash p SortChecker.init)).count_post
        = q.length % u64Mod ∧
    (SortChecker.feedPost hash comp q (SortChecker.feedPre hash p SortChecker.init)).sum_post
        = (q.map hash).sum % u64Mod := by
  have h1 := SortChecker.feedPre_count hash p (SortChecker.init (α := α))
    (by show (0 : Nat) < u64Mod; decide)
  have h2 := SortChecker.feedPre_sum hash p (SortChecker.init (α := α))
    (by show (0 : Nat) < u64Mod; decide)
  have h3 := SortChecker.feedPre_rest hash p (SortChecker.init (α := α))
  have h4 := SortChecker.feedPost_count hash comp q
    (SortChecker.feedPre hash p SortChecker.init)
    (by rw [h3.1]; show (0 : Nat) < u64Mod; decide)
  have h5 := SortChecker.feedPost_sum hash comp q
    (SortChecker.feedPre hash p SortChecker.init)
    (by rw [h3.2.1]; show (0 : Nat) < u64Mod; decide)
  have h6 := SortChecker.feedPost_pre hash comp q
    (SortChecker.feedPre hash p SortChecker.init)
  refine ⟨?_, ?_, ?_, ?_⟩
  · rw [h6.1, h1]; simp [SortChecker.init]
  · rw [h6.2, h2]; simp [SortChecker.init]
  · rw [h4, h3.1]; simp [SortChecker.init]
  · rw [h5, h3.2.1]; simp [SortChecker.init]

/-- Summed totals of a group of accumulators, each fed its own pre/post
share, agree modulo `2 ^ 64` with the raw per-share totals. -/
theorem SortChecker.group_totals {α : Type} [Inhabited α] (hash : α → Nat)
    (comp : α → α → Bool) (parts : List (List α × List α)) :
    (((parts.map (fun pq => SortChecker.feedPost hash comp pq.2
        (SortChecker.feedPre hash pq.1 SortChecker.init))).map
          (fun c => c.count_pre)).sum % u64Mod
      = (parts.map (fun pq => pq.1.length)).sum % u64Mod) ∧
    (((parts.map (fun pq => SortChecker.feedPost hash comp pq.2
        (SortChecker.feedPre hash pq.1 SortChecker.init))).map
          (fun c => c.sum_pre)).sum % u64Mod
      = (parts.map (fun pq => (pq.1.map hash).sum)).sum % u64Mod) ∧
    (((parts.map (fun pq => SortChecker.feedPost hash comp pq.2
        (SortChecker.feedPre hash pq.1 SortChecker.init))).map
          (fun c => c.count_post)).sum % u64Mod
      = (parts.map (fun pq => pq.2.length)).sum % u64Mod) ∧
    (((parts.map (fun pq => SortChecker.feedPost hash comp pq.2
        (SortChecker.feedPre hash pq.1 SortChecker.init))).map
          (fun c => c.sum_post)).sum % u64Mod
      = (parts.map (fun pq => (pq.2.map hash).sum)).sum % u64Mod) := by
  induction parts with
  | nil => exact ⟨rfl, rfl, rfl, rfl⟩
  | cons pq parts ih =>
    have h := SortChecker.feed_fields hash comp pq.1 pq.2
    simp only [List.map_cons, List.sum_cons]
    refine ⟨?_, ?_, ?_, ?_⟩
    · rw [h.1]
      have hr := ih.1
      simp only [u64Mod] at *
      omega
    · rw [h.2.1]
      have hr := ih.2.1
      simp only [u64Mod] at *
      omega
    · rw [h.2.2.1]
      have hr := ih.2.2.1
      simp only [u64Mod] at *
      omega
    · rw [h.2.2.2]
      have hr := ih.2.2.2
      simp only [u64Mod] at *
      omega

theorem flatten_fst_length {α : Type} (parts : List (List α × List α)) :
    ((parts.map Prod.fst).flatten).length = (parts.map (fun pq => pq.1.length)).sum := by
  induction parts with
  | nil => rfl
  | cons pq parts ih => simp [ih]

theorem flatten_snd_length {α : Type} (parts : List (List α × List α)) :
    ((parts.map Prod.snd).flatten).length = (parts.map (fun pq => pq.2.length)).sum := by
  induction parts with
  | nil => rfl
  | cons pq parts ih => simp [ih]

theorem flatten_fst_hash_sum {α : Type} (hash : α → Nat)
    (parts : List (List α × List α)) :
    (((parts.map Prod.fst).flatten).map hash).sum
      = (parts.map (fun pq => (pq.1.map hash).sum)).sum := by
  induction parts with
  | nil => rfl
  | cons pq parts ih =>
    simp only [List.map_cons, List.flatten_cons, List.map_append, List.sum_append, ih,
      List.sum_cons]

theorem flatten_snd_hash_sum {α : Type} (hash : α → Nat)
    (parts : List (List α × List α)) :
    (((parts.map Prod.snd).flatten).map hash).sum
      = (parts.map (fun pq => (pq.2.map hash).sum)).sum := by
  induction parts with
  | nil => rfl
  | cons pq parts ih =>
    simp only [List.map_cons, List.flatten_cons, List.map_append, List.sum_append, ih,
      List.sum_cons]

/-! ## Claim C2 -/

/-- C2: for any distribution of pre and post shares over a group of
accumulators with a common hash function, the static group permutation check
returns exactly the verdict of a single accumulator fed the concatenated pre
stream and the concatenated post stream. -/
theorem C2_group_matches_single {α : Type} [Inhabited α] (hash : α → Nat)
    (comp : α → α → Bool) (parts : List (List α × List α)) :
    SortChecker.is_likely_permuted_group
        (parts.map (fun pq => SortChecker.feedPost hash comp pq.2
          (SortChecker.feedPre hash pq.1 SortChecker.init))) =
    SortChecker.is_likely_permuted
        (SortChecker.feedPost hash comp ((parts.map Prod.snd).flatten)
          (SortChecker.feedPre hash ((parts.map Prod.fst).flatten)
            SortChecker.init)) := by
  have hg := SortChecker.group_totals hash comp parts
  have hf := SortChecker.feed_fields hash comp ((parts.map Prod.fst).flatten)
    ((parts.map Prod.snd).flatten)
  rw [SortChecker.permuted_group_spec]
  simp only [SortChecker.is_likely_permuted]
  rw [hf.1, hf.2.1, hf.2.2.1, hf.2.2.2]
  rw [flatten_fst_length, flatten_snd_length, flatten_fst_hash_sum, flatten_snd_hash_sum]
  rw [hg.1, hg.2.1, hg.2.2.1, hg.2.2.2]
  congr 1
  exact beq_comm_nat _ _

/-! ## Claim C4 -/

/-- C4 counterexample: with a colliding hash (here constant, a legal
instantiation of the `Hash` template parameter), a single accumulator fed
`[0]` as pre and `[1]` as post reports `is_likely_sorted = true` although the
post multiset does not equal the pre multiset, so the claimed "only if"
direction fails. -/
theorem C4_counterexample :
    SortChecker.is_likely_sorted
        (SortChecker.feedPost (fun _ : Nat => 0) (fun a b => decide (a < b)) [1]
          (SortChecker.feedPre (fun _ : Nat => 0) [0] SortChecker.init)) = true ∧
    ¬ ([0] : List Nat).Perm [1] := by
  constructor
  · decide
  · decide

/-- C4 (amended): `is_likely_sorted()` is literally `is_likely_permuted() &&
sorted_locally`, and after a reset, a pre stream and a post stream it is true
exactly when the two streams agree in length and in hash sum modulo `2 ^ 64`
and the post stream is non-decreasing under the comparator.  Multiset
equality of the streams is sufficient (together with sortedness) but not
necessary. -/
theorem C4_single_sorted_characterisation {α : Type} [Inhabited α] (hash : α → Nat)
    (comp : α → α → Bool) (pre post : List α) :
    (SortChecker.is_likely_sorted
        (SortChecker.feedPost hash comp post
          (SortChecker.feedPre hash pre SortChecker.init)) =
      (SortChecker.is_likely_permuted
          (SortChecker.feedPost hash comp post
            (SortChecker.feedPre hash pre SortChecker.init)) &&
        (SortChecker.feedPost hash comp post
          (SortChecker.feedPre hash pre SortChecker.init)).sorted_locally)) ∧
    (SortChecker.is_likely_sorted
        (SortChecker.feedPost hash comp post
          (SortChecker.feedPre hash pre SortChecker.init)) = true ↔
      (pre.length % u64Mod = post.length % u64Mod ∧
        (pre.map hash).sum % u64Mod = (post.map hash).sum % u64Mod ∧
        List.Chain' (fun a b => comp b a = false) post)) := by
  constructor
  · rfl
  · have hf := SortChecker.feed_fields hash comp pre post
    have h3 := SortChecker.feedPre_rest hash pre (SortChecker.init (α := α))
    have hs := SortChecker.feedPost_sorted_fresh hash comp post
      (SortChecker.feedPre hash pre SortChecker.init)
      (by rw [h3.2.2.1]; rfl) (by rw [h3.2.2.2.2.2]; rfl)
    rw [SortChecker.is_likely_sorted, SortChecker.is_likely_permuted]
    simp only [Bool.and_eq_true, beq_iff_eq, hf.1, hf.2.1, hf.2.2.1, hf.2.2.2]
    rw [hs]
    tauto

/-- Witness for C4 (amended) at a concrete sorted permutation. -/
theorem C4_single_sorted_characterisation_witness :
    SortChecker.is_likely_sorted
        (SortChecker.feedPost (fun n : Nat => n) (fun a b => decide (a < b)) [1, 2]
          (SortChecker.feedPre (fun n : Nat => n) [2, 1] SortChecker.init)) = true :=
  (C4_single_sorted_characterisation (fun n : Nat => n) (fun a b => decide (a < b))
      [2, 1] [1, 2]).2.mpr ⟨by decide, by decide, List.Chain.cons (by decide) List.Chain.nil⟩

/-! ## List getD / set helpers for the combine memory model -/

theorem getD_set_self {β : Type} (d : β) :
    ∀ (m : List β) (i : Nat) (x : β), i < m.length → (m.set i x).getD i d = x := by
  intro m
  induction m with
  | nil => intro i x h; cases h
  | cons a m ih =>
    intro i x h
    cases i with
    | zero => rfl
    | succ i => exact ih i x (by simpa using h)

theorem getD_set_ne {β : Type} (d : β) :
    ∀ (m : List β) (i j : Nat) (x : β), i ≠ j → (m.set i x).getD j d = m.getD j d := by
  intro m
  induction m with
  | nil => intro i j x _; rfl
  | cons a m ih =>
    intro i j x h
    cases i with
    | zero =>
      cases j with
      | zero => exact absurd rfl h
      | succ j => rfl
    | succ i =>
      cases j with
      | zero => rfl
      | succ j => exact ih i j x (fun e => h (by rw [e]))

theorem set_getD_self {β : Type} (d : β) :
    ∀ (m : List β) (i : Nat), i < m.length → m.set i (m.getD i d) = m := by
  intro m
  induction m with
  | nil => intro i h; cases h
  | cons a m ih =>
    intro i h
    cases i with
    | zero => rfl
    | succ i =>
      show a :: m.set i (m.getD i d) = a :: m
      rw [ih i (by simpa using h)]

theorem map_getD_range' {β : Type} (d : β) :
    ∀ (k a : Nat) (m : List β), a + k ≤ m.length →
      (List.range' a k).map (fun i => m.getD i d) = (m.drop a).take k := by
  intro k
  induction k with
  | zero => intro a m _; simp
  | succ k ih =>
    intro a m h
    have ha : a < m.length := by omega
    rw [List.range'_succ]
    simp only [List.map_cons]
    rw [List.drop_eq_getElem_cons ha, List.take_succ_cons, ih (a + 1) m (by omega)]
    congr 1
    rw [List.getD_eq_getElem?_getD, List.getElem?_eq_getElem ha]
    rfl

/-! ## First loop of `combine_pre`: accumulation into the caller -/

/-- Effect of one iteration of the first loop on the caller value `c`, with
the rest of the memory still holding its original values: the iteration reads
the caller itself when `i = s` (aliasing) and the original cell otherwise. -/
def Checker.readStepPre (m : List Checker) (s : Nat) (c : Checker) (i : Nat) : Checker :=
  Checker.readUpdPre c (if i = s then c else m.getD i Checker.d0)

theorem Checker.combinePreRead_foldl (m : List Checker) (s : Nat) (hs : s < m.length)
    (is : List Nat) :
    ∀ c, is.foldl (Checker.combinePreRead s) (m.set s c)
      = m.set s (is.foldl (Checker.readStepPre m s) c) := by
  induction is with
  | nil => intro c; rfl
  | cons i is ih =>
    intro c
    show is.foldl (Checker.combinePreRead s) (Checker.combinePreRead s (m.set s c) i) = _
    have h1 : Checker.combinePreRead s (m.set s c) i
        = m.set s (Checker.readStepPre m s c i) := by
      show (m.set s c).set s
          (Checker.readUpdPre ((m.set s c).getD s Checker.d0)
            ((m.set s c).getD i Checker.d0)) = _
      rw [List.set_set, getD_set_self Checker.d0 m s c hs]
      by_cases hi : i = s
      · subst hi
        rw [getD_set_self Checker.d0 m i c hs]
        simp [Checker.readStepPre]
      · rw [getD_set_ne Checker.d0 m s i c (fun e => hi e.symm)]
        simp [Checker.readStepPre, hi]
    rw [h1, ih (Checker.readStepPre m s c i)]
    rfl

theorem Checker.readStepPre_no_alias (m : List Checker) (s : Nat) :
    ∀ (is : List Nat), (∀ i ∈ is, i ≠ s) →
      ∀ c, is.foldl (Checker.readStepPre m s) c
        = (is.map (fun i => m.getD i Checker.d0)).foldl Checker.readUpdPre c := by
  intro is
  induction is with
  | nil => intro _ c; rfl
  | cons i is ih =>
    intro h c
    show is.foldl (Checker.readStepPre m s) (Checker.readStepPre m s c i) = _
    have hi : Checker.readStepPre m s c i
        = Checker.readUpdPre c (m.getD i Checker.d0) := by
      simp [Checker.readStepPre, h i (List.mem_cons_self i is)]
    rw [hi, ih (fun j hj => h j (List.mem_cons_of_mem i hj))]
    rfl

theorem Checker.foldl_readUpdPre (xs : List Checker) :
    ∀ c : Checker, c.count_pre < u64Mod → c.sum_pre < u64Mod →
      xs.foldl Checker.readUpdPre c =
        { c with
          count_pre := (c.count_pre + (xs.map (fun x => x.count_pre)).sum) % u64Mod,
          sum_pre := (c.sum_pre + (xs.map (fun x => x.sum_pre)).sum) % u64Mod } := by
  induction xs with
  | nil =>
    intro c h1 h2
    show c = _
    simp only [List.map_nil, List.sum_nil, Nat.add_zero, Nat.mod_eq_of_lt h1,
      Nat.mod_eq_of_lt h2]
  | cons x xs ih =>
    intro c h1 h2
    show xs.foldl Checker.readUpdPre (Checker.readUpdPre c x) = _
    rw [ih _ (addU64_lt _ _) (addU64_lt _ _)]
    simp only [Checker.readUpdPre, addU64, u64Mod, List.map_cons, List.sum_cons,
      Checker.mk.injEq]
    exact ⟨by omega, trivial, by omega, trivial⟩

theorem Checker.combinePre_loop1_no_alias (m : List Checker) (s r : Nat)
    (hs : s < m.length) (hr : r ≤ m.length) (hsr : r ≤ s)
    (h1 : (m.getD s Checker.d0).count_pre < u64Mod)
    (h2 : (m.getD s Checker.d0).sum_pre < u64Mod) :
    (List.range r).foldl (Checker.combinePreRead s) m =
      m.set s { m.getD s Checker.d0 with
        count_pre := ((m.getD s Checker.d0).count_pre
          + ((m.take r).map (fun x => x.count_pre)).sum) % u64Mod,
        sum_pre := ((m.getD s Checker.d0).sum_pre
          + ((m.take r).map (fun x => x.sum_pre)).sum) % u64Mod } := by
  conv_lhs => rw [← set_getD_self Checker.d0 m s hs]
  rw [Checker.combinePreRead_foldl m s hs]
  rw [Checker.readStepPre_no_alias m s (List.range r)
    (fun i hi => by have := List.mem_range.mp hi; omega)]
  rw [List.range_eq_range', map_getD_range' Checker.d0 r 0 m (by omega), List.drop_zero]
  rw [Checker.foldl_readUpdPre _ _ h1 h2]

theorem Checker.combinePre_loop1_alias (m : List Checker) (s r : Nat)
    (hr : r ≤ m.length) (hsr : s < r)
    (h1 : (m.getD s Checker.d0).count_pre < u64Mod)
    (h2 : (m.getD s Checker.d0).sum_pre < u64Mod) :
    (List.range r).foldl (Checker.combinePreRead s) m =
      m.set s { m.getD s Checker.d0 with
        count_pre := (2 * ((m.getD s Checker.d0).count_pre
            + ((m.take s).map (fun x => x.count_pre)).sum)
          + (((m.drop (s + 1)).take (r - s - 1)).map (fun x => x.count_pre)).sum)
            % u64Mod,
        sum_pre := (2 * ((m.getD s Checker.d0).sum_pre
            + ((m.take s).map (fun x => x.sum_pre)).sum)
          + (((m.drop (s + 1)).take (r - s - 1)).map (fun x => x.sum_pre)).sum)
            % u64Mod } := by
  have hs : s < m.length := by omega
  have h0 : List.range' 0 s ++ List.range' s (r - s) = List.range' 0 r := by
    have h := List.range'_append 0 s (r - s) 1
    simp only [Nat.one_mul, Nat.zero_add] at h
    rw [Nat.sub_add_cancel (Nat.le_of_lt hsr)] at h
    exact h
  have hsplit : List.range r
      = List.range' 0 s ++ (s :: List.range' (s + 1) (r - s - 1)) := by
    rw [List.range_eq_range', ← h0]
    congr 1
    have hk : r - s = (r - s - 1) + 1 := by omega
    conv_lhs => rw [hk]
    rw [List.range'_succ]
  conv_lhs => rw [← set_getD_self Checker.d0 m s hs]
  rw [Checker.combinePreRead_foldl m s hs, hsplit, List.foldl_append]
  rw [Checker.readStepPre_no_alias m s (List.range' 0 s)
    (fun i hi => by have := List.mem_range'_1.mp hi; omega)]
  rw [map_getD_range' Checker.d0 s 0 m (by omega), List.drop_zero]
  rw [Checker.foldl_readUpdPre _ _ h1 h2]
  rw [List.foldl_cons]
  rw [show ∀ c : Checker, Checker.readStepPre m s c s = Checker.readUpdPre c c from
    fun c => by simp [Checker.readStepPre]]
  rw [Checker.readStepPre_no_alias m s (List.range' (s + 1) (r - s - 1))
    (fun i hi => by have := List.mem_range'_1.mp hi; omega)]
  rw [map_getD_range' Checker.d0 (r - s - 1) (s + 1) m (by omega)]
  rw [Checker.foldl_readUpdPre _ _ (addU64_lt _ _) (addU64_lt _ _)]
  congr 1
  simp only [Checker.readUpdPre, addU64, u64Mod, Checker.mk.injEq]
  exact ⟨by omega, trivial, by omega, trivial⟩

/-! ## Second loop of `combine_pre`: broadcast of the caller totals -/

theorem Checker.combinePreWrite_foldl :
    ∀ (is : List Nat) (m : List Checker) (s : Nat), s < m.length → is.Nodup →
      (∀ i ∈ is, i < m.length) →
      ∀ j, (is.foldl (Checker.combinePreWrite s) m).getD j Checker.d0
        = if j ∈ is
          then Checker.writePre (m.getD j Checker.d0) (m.getD s Checker.d0)
          else m.getD j Checker.d0 := by
  intro is
  induction is with
  | nil => intro m s _ _ _ j; simp
  | cons i is ih =>
    intro m s hs hnd hbound j
    have hi : i < m.length := hbound i (List.mem_cons_self i is)
    have hnd1 : i ∉ is := (List.nodup_cons.mp hnd).1
    have hnd2 : is.Nodup := (List.nodup_cons.mp hnd).2
    show (is.foldl (Checker.combinePreWrite s)
        (Checker.combinePreWrite s m i)).getD j Checker.d0 = _
    by_cases his : i = s
    · subst his
      have hm : Checker.combinePreWrite i m i = m := by
        show m.set i (Checker.writePre (m.getD i Checker.d0) (m.getD i Checker.d0)) = m
        rw [show Checker.writePre (m.getD i Checker.d0) (m.getD i Checker.d0)
            = m.getD i Checker.d0 from rfl]
        exact set_getD_self Checker.d0 m i hi
      rw [hm, ih m i hs hnd2 (fun jj hjj => hbound jj (List.mem_cons_of_mem i hjj)) j]
      by_cases hj : j ∈ is
      · simp [hj, List.mem_cons]
      · by_cases hji : j = i
        · subst hji
          simp only [hj, if_false, List.mem_cons, true_or, if_true, or_false]
          exact (rfl : m.getD j Checker.d0
            = Checker.writePre (m.getD j Checker.d0) (m.getD j Checker.d0))
        · simp [hj, hji, List.mem_cons]
    · have hlen : (Checker.combinePreWrite s m i).length = m.length := by
        show (m.set i _).length = m.length
        exact List.length_set m i _
      have hgs : (Checker.combinePreWrite s m i).getD s Checker.d0
          = m.getD s Checker.d0 := by
        show (m.set i _).getD s Checker.d0 = _
        exact getD_set_ne Checker.d0 m i s _ his
      rw [ih (Checker.combinePreWrite s m i) s (by rw [hlen]; exact hs) hnd2
        (fun jj hjj => by rw [hlen]; exact hbound jj (List.mem_cons_of_mem i hjj)) j]
      rw [hgs]
      by_cases hji : j = i
      · subst hji
        have hjv : (Checker.combinePreWrite s m j).getD j Checker.d0
            = Checker.writePre (m.getD j Checker.d0) (m.getD s Checker.d0) := by
          show (m.set j _).getD j Checker.d0 = _
          exact getD_set_self Checker.d0 m j _ hi
        rw [if_neg hnd1, if_pos (List.mem_cons_self j is), hjv]
      · have hjv : (Checker.combinePreWrite s m i).getD j Checker.d0
            = m.getD j Checker.d0 := by
          show (m.set i _).getD j Checker.d0 = _
          exact getD_set_ne Checker.d0 m i j _ (fun e => hji e.symm)
        rw [hjv]
        by_cases hj : j ∈ is
        · simp [hj, List.mem_cons]
        · simp [hj, hji, List.mem_cons]

/-! ## Element-wise behaviour of `combine_pre` -/

theorem Checker.combine_pre_no_alias_getD (m : List Checker) (s r : Nat)
    (hs : s < m.length) (hr : r ≤ m.length) (hsr : r ≤ s)
    (h1 : (m.getD s Checker.d0).count_pre < u64Mod)
    (h2 : (m.getD s Checker.d0).sum_pre < u64Mod) :
    ∀ j, (Checker.combine_pre m s r).getD j Checker.d0
      = if j < r ∨ j = s
        then { m.getD j Checker.d0 with
               count_pre := ((m.getD s Checker.d0).count_pre
                 + ((m.take r).map (fun x => x.count_pre)).sum) % u64Mod,
               sum_pre := ((m.getD s Checker.d0).sum_pre
                 + ((m.take r).map (fun x => x.sum_pre)).sum) % u64Mod }
        else m.getD j Checker.d0 := by
  intro j
  show ((List.range r).foldl (Checker.combinePreWrite s)
      ((List.range r).foldl (Checker.combinePreRead s) m)).getD j Checker.d0 = _
  rw [Checker.combinePre_loop1_no_alias m s r hs hr hsr h1 h2]
  rw [Checker.combinePreWrite_foldl (List.range r) _ s
    (by rw [List.length_set]; exact hs) (List.nodup_range r)
    (fun i hi => by rw [List.length_set]; have := List.mem_range.mp hi; omega)]
  rw [getD_set_self Checker.d0 m s _ hs]
  by_cases hjr : j < r
  · have hjs : j ≠ s := by omega
    rw [if_pos (List.mem_range.mpr hjr), if_pos (Or.inl hjr)]
    rw [getD_set_ne Checker.d0 m s j _ (fun e => hjs e.symm)]
    rfl
  · by_cases hjs : j = s
    · subst hjs
      rw [if_neg (fun hmem => hjr (List.mem_range.mp hmem)), if_pos (Or.inr rfl)]
      rw [getD_set_self Checker.d0 m j _ hs]
    · rw [if_neg (fun hmem => hjr (List.mem_range.mp hmem)),
        if_neg (fun h => by cases h with | inl h => exact hjr h | inr h => exact hjs h)]
      exact getD_set_ne Checker.d0 m s j _ (fun e => hjs e.symm)

theorem Checker.combine_pre_alias_getD (m : List Checker) (s r : Nat)
    (hr : r ≤ m.length) (hsr : s < r)
    (h1 : (m.getD s Checker.d0).count_pre < u64Mod)
    (h2 : (m.getD s Checker.d0).sum_pre < u64Mod) :
    ∀ j, (Checker.combine_pre m s r).getD j Checker.d0
      = if j < r
        then { m.getD j Checker.d0 with
               count_pre := (2 * ((m.getD s Checker.d0).count_pre
                   + ((m.take s).map (fun x => x.count_pre)).sum)
                 + (((m.drop (s + 1)).take (r - s - 1)).map
                     (fun x => x.count_pre)).sum) % u64Mod,
               sum_pre := (2 * ((m.getD s Checker.d0).sum_pre
                   + ((m.take s).map (fun x => x.sum_pre)).sum)
                 + (((m.drop (s + 1)).take (r - s - 1)).map
                     (fun x => x.sum_pre)).sum) % u64Mod }
        else m.getD j Checker.d0 := by
  intro j
  have hs : s < m.length := by omega
  show ((List.range r).foldl (Checker.combinePreWrite s)
      ((List.range r).foldl (Checker.combinePreRead s) m)).getD j Checker.d0 = _
  rw [Checker.combinePre_loop1_alias m s r hr hsr h1 h2]
  rw [Checker.combinePreWrite_foldl (List.range r) _ s
    (by rw [List.length_set]; exact hs) (List.nodup_range r)
    (fun i hi => by rw [List.length_set]; have := List.mem_range.mp hi; omega)]
  rw [getD_set_self Checker.d0 m s _ hs]
  by_cases hjr : j < r
  · rw [if_pos (List.mem_range.mpr hjr), if_pos hjr]
    by_cases hjs : j = s
    · subst hjs
      rw [getD_set_self Checker.d0 m j _ hs]
      rfl
    · rw [getD_set_ne Checker.d0 m s j _ (fun e => hjs e.symm)]
      rfl
  · rw [if_neg (fun hmem => hjr (List.mem_range.mp hmem)), if_neg hjr]
    have hjs : j ≠ s := by omega
    exact getD_set_ne Checker.d0 m s j _ (fun e => hjs e.symm)

/-! ## The same development for `combine_post` -/

/-- Effect of one iteration of the first loop on the caller value `c`, with
the rest of the memory still holding its original values: the iteration reads
the caller itself when `i = s` (aliasing) and the original cell otherwise. -/
def Checker.readStepPost (m : List Checker) (s : Nat) (c : Checker) (i : Nat) : Checker :=
  Checker.readUpdPost c (if i = s then c else m.getD i Checker.d0)

theorem Checker.combinePostRead_foldl (m : List Checker) (s : Nat) (hs : s < m.length)
    (is : List Nat) :
    ∀ c, is.foldl (Checker.combinePostRead s) (m.set s c)
      = m.set s (is.foldl (Checker.readStepPost m s) c) := by
  induction is with
  | nil => intro c; rfl
  | cons i is ih =>
    intro c
    show is.foldl (Checker.combinePostRead s) (Checker.combinePostRead s (m.set s c) i) = _
    have h1 : Checker.combinePostRead s (m.set s c) i
        = m.set s (Checker.readStepPost m s c i) := by
      show (m.set s c).set s
          (Checker.readUpdPost ((m.set s c).getD s Checker.d0)
            ((m.set s c).getD i Checker.d0)) = _
      rw [List.set_set, getD_set_self Checker.d0 m s c hs]
      by_cases hi : i = s
      · subst hi
        rw [getD_set_self Checker.d0 m i c hs]
        simp [Checker.readStepPost]
      · rw [getD_set_ne Checker.d0 m s i c (fun e => hi e.symm)]
        simp [Checker.readStepPost, hi]
    rw [h1, ih (Checker.readStepPost m s c i)]
    rfl

theorem Checker.readStepPost_no_alias (m : List Checker) (s : Nat) :
    ∀ (is : List Nat), (∀ i ∈ is, i ≠ s) →
      ∀ c, is.foldl (Checker.readStepPost m s) c
        = (is.map (fun i => m.getD i Checker.d0)).foldl Checker.readUpdPost c := by
  intro is
  induction is with
  | nil => intro _ c; rfl
  | cons i is ih =>
    intro h c
    show is.foldl (Checker.readStepPost m s) (Checker.readStepPost m s c i) = _
    have hi : Checker.readStepPost m s c i
        = Checker.readUpdPost c (m.getD i Checker.d0) := by
      simp [Checker.readStepPost, h i (List.mem_cons_self i is)]
    rw [hi, ih (fun j hj => h j (List.mem_cons_of_mem i hj))]
    rfl

theorem Checker.foldl_readUpdPost (xs : List Checker) :
    ∀ c : Checker, c.count_post < u64Mod → c.sum_post < u64Mod →
      xs.foldl Checker.readUpdPost c =
        { c with
          count_post := (c.count_post + (xs.map (fun x => x.count_post)).sum) % u64Mod,
          sum_post := (c.sum_post + (xs.map (fun x => x.sum_post)).sum) % u64Mod } := by
  induction xs with
  | nil =>
    intro c h1 h2
    show c = _
    simp only [List.map_nil, List.sum_nil, Nat.add_zero, Nat.mod_eq_of_lt h1,
      Nat.mod_eq_of_lt h2]
  | cons x xs ih =>
    intro c h1 h2
    show xs.foldl Checker.readUpdPost (Checker.readUpdPost c x) = _
    rw [ih _ (addU64_lt _ _) (addU64_lt _ _)]
    simp only [Checker.readUpdPost, addU64, u64Mod, List.map_cons, List.sum_cons,
      Checker.mk.injEq]
    exact ⟨trivial, by omega, trivial, by omega⟩

theorem Checker.combinePost_loop1_no_alias (m : List Checker) (s r : Nat)
    (hs : s < m.length) (hr : r ≤ m.length) (hsr : r ≤ s)
    (h1 : (m.getD s Checker.d0).count_post < u64Mod)
    (h2 : (m.getD s Checker.d0).sum_post < u64Mod) :
    (List.range r).foldl (Checker.combinePostRead s) m =
      m.set s { m.getD s Checker.d0 with
        count_post := ((m.getD s Checker.d0).count_post
          + ((m.take r).map (fun x => x.count_post)).sum) % u64Mod,
        sum_post := ((m.getD s Checker.d0).sum_post
          + ((m.take r).map (fun x => x.sum_post)).sum) % u64Mod } := by
  conv_lhs => rw [← set_getD_self Checker.d0 m s hs]
  rw [Checker.combinePostRead_foldl m s hs]
  rw [Checker.readStepPost_no_alias m s (List.range r)
    (fun i hi => by have := List.mem_range.mp hi; omega)]
  rw [List.range_eq_range', map_getD_range' Checker.d0 r 0 m (by omega), List.drop_zero]
  rw [Checker.foldl_readUpdPost _ _ h1 h2]

theorem Checker.combinePost_loop1_alias (m : List Checker) (s r : Nat)
    (hr : r ≤ m.length) (hsr : s < r)
    (h1 : (m.getD s Checker.d0).count_post < u64Mod)
    (h2 : (m.getD s Checker.d0).sum_post < u64Mod) :
    (List.range r).foldl (Checker.combinePostRead s) m =
      m.set s { m.getD s Checker.d0 with
        count_post := (2 * ((m.getD s Checker.d0).count_post
            + ((m.take s).map (fun x => x.count_post)).sum)
          + (((m.drop (s + 1)).take (r - s - 1)).map (fun x => x.count_post)).sum)
            % u64Mod,
        sum_post := (2 * ((m.getD s Checker.d0).sum_post
            + ((m.take s).map (fun x => x.sum_post)).sum)
          + (((m.drop (s + 1)).take (r - s - 1)).map (fun x => x.sum_post)).sum)
            % u64Mod } := by
  have hs : s < m.length := by omega
  have h0 : List.range' 0 s ++ List.range' s (r - s) = List.range' 0 r := by
    have h := List.range'_append 0 s (r - s) 1
    simp only [Nat.one_mul, Nat.zero_add] at h
    rw [Nat.sub_add_cancel (Nat.le_of_lt hsr)] at h
    exact h
  have hsplit : List.range r
      = List.range' 0 s ++ (s :: List.range' (s + 1) (r - s - 1)) := by
    rw [List.range_eq_range', ← h0]
    congr 1
    have hk : r - s = (r - s - 1) + 1 := by omega
    conv_lhs => rw [hk]
    rw [List.range'_succ]
  conv_lhs => rw [← set_getD_self Checker.d0 m s hs]
  rw [Checker.combinePostRead_foldl m s hs, hsplit, List.foldl_append]
  rw [Checker.readStepPost_no_alias m s (List.range' 0 s)
    (fun i hi => by have := List.mem_range'_1.mp hi; omega)]
  rw [map_getD_range' Checker.d0 s 0 m (by omega), List.drop_zero]
  rw [Checker.foldl_readUpdPost _ _ h1 h2]
  rw [List.foldl_cons]
  rw [show ∀ c : Checker, Checker.readStepPost m s c s = Checker.readUpdPost c c from
    fun c => by simp [Checker.readStepPost]]
  rw [Checker.readStepPost_no_alias m s (List.range' (s + 1) (r - s - 1))
    (fun i hi => by have := List.mem_range'_1.mp hi; omega)]
  rw [map_getD_range' Checker.d0 (r - s - 1) (s + 1) m (by omega)]
  rw [Checker.foldl_readUpdPost _ _ (addU64_lt _ _) (addU64_lt _ _)]
  congr 1
  simp only [Checker.readUpdPost, addU64, u64Mod, Checker.mk.injEq]
  exact ⟨trivial, by omega, trivial, by omega⟩

/-! ## Second loop of `combine_post` -/

theorem Checker.combinePostWrite_foldl :
    ∀ (is : List Nat) (m : List Checker) (s : Nat), s < m.length → is.Nodup →
      (∀ i ∈ is, i < m.length) →
      ∀ j, (is.foldl (Checker.combinePostWrite s) m).getD j Checker.d0
        = if j ∈ is
          then Checker.writePost (m.getD j Checker.d0) (m.getD s Checker.d0)
          else m.getD j Checker.d0 := by
  intro is
  induction is with
  | nil => intro m s _ _ _ j; simp
  | cons i is ih =>
    intro m s hs hnd hbound j
    have hi : i < m.length := hbound i (List.mem_cons_self i is)
    have hnd1 : i ∉ is := (List.nodup_cons.mp hnd).1
    have hnd2 : is.Nodup := (List.nodup_cons.mp hnd).2
    show (is.foldl (Checker.combinePostWrite s)
        (Checker.combinePostWrite s m i)).getD j Checker.d0 = _
    by_cases his : i = s
    · subst his
      have hm : Checker.combinePostWrite i m i = m := by
        show m.set i (Checker.writePost (m.getD i Checker.d0) (m.getD i Checker.d0)) = m
        rw [show Checker.writePost (m.getD i Checker.d0) (m.getD i Checker.d0)
            = m.getD i Checker.d0 from rfl]
        exact set_getD_self Checker.d0 m i hi
      rw [hm, ih m i hs hnd2 (fun jj hjj => hbound jj (List.mem_cons_of_mem i hjj)) j]
      by_cases hj : j ∈ is
      · simp [hj, List.mem_cons]
      · by_cases hji : j = i
        · subst hji
          simp only [hj, if_false, List.mem_cons, true_or, if_true, or_false]
          exact (rfl : m.getD j Checker.d0
            = Checker.writePost (m.getD j Checker.d0) (m.getD j Checker.d0))
        · simp [hj, hji, List.mem_cons]
    · have hlen : (Checker.combinePostWrite s m i).length = m.length := by
        show (m.set i _).length = m.length
        exact List.length_set m i _
      have hgs : (Checker.combinePostWrite s m i).getD s Checker.d0
          = m.getD s Checker.d0 := by
        show (m.set i _).getD s Checker.d0 = _
        exact getD_set_ne Checker.d0 m i s _ his
      rw [ih (Checker.combinePostWrite s m i) s (by rw [hlen]; exact hs) hnd2
        (fun jj hjj => by rw [hlen]; exact hbound jj (List.mem_cons_of_mem i hjj)) j]
      rw [hgs]
      by_cases hji : j = i
      · subst hji
        have hjv : (Checker.combinePostWrite s m j).getD j Checker.d0
            = Checker.writePost (m.getD j Checker.d0) (m.getD s Checker.d0) := by
          show (m.set j _).getD j Checker.d0 = _
          exact getD_set_self Checker.d0 m j _ hi
        rw [if_neg hnd1, if_pos (List.mem_cons_self j is), hjv]
      · have hjv : (Checker.combinePostWrite s m i).getD j Checker.d0
            = m.getD j Checker.d0 := by
          show (m.set i _).getD j Checker.d0 = _
          exact getD_set_ne Checker.d0 m i j _ (fun e => hji e.symm)
        rw [hjv]
        by_cases hj : j ∈ is
        · simp [hj, List.mem_cons]
        · simp [hj, hji, List.mem_cons]

/-! ## Element-wise behaviour of `combine_post` -/

theorem Checker.combine_post_no_alias_getD (m : List Checker) (s r : Nat)
    (hs : s < m.length) (hr : r ≤ m.length) (hsr : r ≤ s)
    (h1 : (m.getD s Checker.d0).count_post < u64Mod)
    (h2 : (m.getD s Checker.d0).sum_post < u64Mod) :
    ∀ j, (Checker.combine_post m s r).getD j Checker.d0
      = if j < r ∨ j = s
        then { m.getD j Checker.d0 with
               count_post := ((m.getD s Checker.d0).count_post
                 + ((m.take r).map (fun x => x.count_post)).sum) % u64Mod,
               sum_post := ((m.getD s Checker.d0).sum_post
                 + ((m.take r).map (fun x => x.sum_post)).sum) % u64Mod }
        else m.getD j Checker.d0 := by
  intro j
  show ((List.range r).foldl (Checker.combinePostWrite s)
      ((List.range r).foldl (Checker.combinePostRead s) m)).getD j Checker.d0 = _
  rw [Checker.combinePost_loop1_no_alias m s r hs hr hsr h1 h2]
  rw [Checker.combinePostWrite_foldl (List.range r) _ s
    (by rw [List.length_set]; exact hs) (List.nodup_range r)
    (fun i hi => by rw [List.length_set]; have := List.mem_range.mp hi; omega)]
  rw [getD_set_self Checker.d0 m s _ hs]
  by_cases hjr : j < r
  · have hjs : j ≠ s := by omega
    rw [if_pos (List.mem_range.mpr hjr), if_pos (Or.inl hjr)]
    rw [getD_set_ne Checker.d0 m s j _ (fun e => hjs e.symm)]
    rfl
  · by_cases hjs : j = s
    · subst hjs
      rw [if_neg (fun hmem => hjr (List.mem_range.mp hmem)), if_pos (Or.inr rfl)]
      rw [getD_set_self Checker.d0 m j _ hs]
    · rw [if_neg (fun hmem => hjr (List.mem_range.mp hmem)),
        if_neg (fun h => by cases h with | inl h => exact hjr h | inr h => exact hjs h)]
      exact getD_set_ne Checker.d0 m s j _ (fun e => hjs e.symm)

theorem Checker.combine_post_alias_getD (m : List Checker) (s r : Nat)
    (hr : r ≤ m.length) (hsr : s < r)
    (h1 : (m.getD s Checker.d0).count_post < u64Mod)
    (h2 : (m.getD s Checker.d0).sum_post < u64Mod) :
    ∀ j, (Checker.combine_post m s r).getD j Checker.d0
      = if j < r
        then { m.getD j Checker.d0 with
               count_post := (2 * ((m.getD s Checker.d0).count_post
                   + ((m.take s).map (fun x => x.count_post)).sum)
                 + (((m.drop (s + 1)).take (r - s - 1)).map
                     (fun x => x.count_post)).sum) % u64Mod,
               sum_post := (2 * ((m.getD s Checker.d0).sum_post
                   + ((m.take s).map (fun x => x.sum_post)).sum)
                 + (((m.drop (s + 1)).take (r - s - 1)).map
                     (fun x => x.sum_post)).sum) % u64Mod }
        else m.getD j Checker.d0 := by
  intro j
  have hs : s < m.length := by omega
  show ((List.range r).foldl (Checker.combinePostWrite s)
      ((List.range r).foldl (Checker.combinePostRead s) m)).getD j Checker.d0 = _
  rw [Checker.combinePost_loop1_alias m s r hr hsr h1 h2]
  rw [Checker.combinePostWrite_foldl (List.range r) _ s
    (by rw [List.length_set]; exact hs) (List.nodup_range r)
    (fun i hi => by rw [List.length_set]; have := List.mem_range.mp hi; omega)]
  rw [getD_set_self Checker.d0 m s _ hs]
  by_cases hjr : j < r
  · rw [if_pos (List.mem_range.mpr hjr), if_pos hjr]
    by_cases hjs : j = s
    · subst hjs
      rw [getD_set_self Checker.d0 m j _ hs]
      rfl
    · rw [getD_set_ne Checker.d0 m s j _ (fun e => hjs e.symm)]
      rfl
  · rw [if_neg (fun hmem => hjr (List.mem_range.mp hmem)), if_neg hjr]
    have hjs : j ≠ s := by omega
    exact getD_set_ne Checker.d0 m s j _ (fun e => hjs e.symm)

/-! ## Append helpers for the disjoint caller layout -/

theorem getD_append_left {β : Type} (d : β) :
    ∀ (l1 l2 : List β) (j : Nat), j < l1.length → (l1 ++ l2).getD j d = l1.getD j d := by
  intro l1
  induction l1 with
  | nil => intro l2 j h; cases h
  | cons a l1 ih =>
    intro l2 j h
    cases j with
    | zero => rfl
    | succ j => exact ih l2 j (by simpa using h)

theorem getD_append_cons_self {β : Type} (d : β) :
    ∀ (l1 : List β) (x : β) (l2 : List β), (l1 ++ x :: l2).getD l1.length d = x := by
  intro l1
  induction l1 with
  | nil => intro x l2; rfl
  | cons a l1 ih => intro x l2; exact ih x l2

/-! ## Claims C9 and C7 -/

/-- C9 (amended): if the caller `m[s]` is not in the range `[0, r)`, then
after `combine_pre` the caller and every range member hold
`caller prior + sum of range priors` (mod `2 ^ 64`) in the pre channel; if
the caller sits at position `s` inside the range, the caller's prior value
AND the values of the range members before position `s` are doubled:
every range member ends with
`2 * (caller prior + sum before s) + sum after s` (mod `2 ^ 64`);
symmetrically for `combine_post` on the post channel. -/
theorem C9_combine_totals (m : List Checker) (s r : Nat)
    (hs : s < m.length) (hr : r ≤ m.length)
    (h1 : (m.getD s Checker.d0).count_pre < u64Mod)
    (h2 : (m.getD s Checker.d0).sum_pre < u64Mod)
    (h3 : (m.getD s Checker.d0).count_post < u64Mod)
    (h4 : (m.getD s Checker.d0).sum_post < u64Mod) :
    (r ≤ s → ∀ j, j < r ∨ j = s →
      ((Checker.combine_pre m s r).getD j Checker.d0).count_pre
        = ((m.getD s Checker.d0).count_pre
          + ((m.take r).map (fun x => x.count_pre)).sum) % u64Mod ∧
      ((Checker.combine_pre m s r).getD j Checker.d0).sum_pre
        = ((m.getD s Checker.d0).sum_pre
          + ((m.take r).map (fun x => x.sum_pre)).sum) % u64Mod ∧
      ((Checker.combine_post m s r).getD j Checker.d0).count_post
        = ((m.getD s Checker.d0).count_post
          + ((m.take r).map (fun x => x.count_post)).sum) % u64Mod ∧
      ((Checker.combine_post m s r).getD j Checker.d0).sum_post
        = ((m.getD s Checker.d0).sum_post
          + ((m.take r).map (fun x => x.sum_post)).sum) % u64Mod) ∧
    (s < r → ∀ j, j < r →
      ((Checker.combine_pre m s r).getD j Checker.d0).count_pre
        = (2 * ((m.getD s Checker.d0).count_pre
            + ((m.take s).map (fun x => x.count_pre)).sum)
          + (((m.drop (s + 1)).take (r - s - 1)).map (fun x => x.count_pre)).sum)
            % u64Mod ∧
      ((Checker.combine_pre m s r).getD j Checker.d0).sum_pre
        = (2 * ((m.getD s Checker.d0).sum_pre
            + ((m.take s).map (fun x => x.sum_pre)).sum)
          + (((m.drop (s + 1)).take (r - s - 1)).map (fun x => x.sum_pre)).sum)
            % u64Mod ∧
      ((Checker.combine_post m s r).getD j Checker.d0).count_post
        = (2 * ((m.getD s Checker.d0).count_post
            + ((m.take s).map (fun x => x.count_post)).sum)
          + (((m.drop (s + 1)).take (r - s - 1)).map (fun x => x.count_post)).sum)
            % u64Mod ∧
      ((Checker.combine_post m s r).getD j Checker.d0).sum_post
        = (2 * ((m.getD s Checker.d0).sum_post
            + ((m.take s).map (fun x => x.sum_post)).sum)
          + (((m.drop (s + 1)).take (r - s - 1)).map (fun x => x.sum_post)).sum)
            % u64Mod) := by
  constructor
  · intro hsr j hj
    have hpre := Checker.combine_pre_no_alias_getD m s r hs hr hsr h1 h2 j
    have hpost := Checker.combine_post_no_alias_getD m s r hs hr hsr h3 h4 j
    rw [if_pos hj] at hpre hpost
    rw [hpre, hpost]
    exact ⟨rfl, rfl, rfl, rfl⟩
  · intro hsr j hj
    have hpre := Checker.combine_pre_alias_getD m s r hr hsr h1 h2 j
    have hpost := Checker.combine_post_alias_getD m s r hr hsr h3 h4 j
    rw [if_pos hj] at hpre hpost
    rw [hpre, hpost]
    exact ⟨rfl, rfl, rfl, rfl⟩

/-- Witness for C9 (amended) with the caller outside the range. -/
theorem C9_combine_totals_witness :
    ((Checker.combine_pre [⟨1, 2, 3, 4⟩, ⟨5, 6, 7, 8⟩] 1 1).getD 1
      Checker.d0).count_pre
      = (((([⟨1, 2, 3, 4⟩, ⟨5, 6, 7, 8⟩] : List Checker).getD 1
            Checker.d0).count_pre
        + ((([⟨1, 2, 3, 4⟩, ⟨5, 6, 7, 8⟩] : List Checker).take 1).map
            (fun x => x.count_pre)).sum) % u64Mod) :=
  ((C9_combine_totals [⟨1, 2, 3, 4⟩, ⟨5, 6, 7, 8⟩] 1 1 (by decide) (by decide)
      (by decide) (by decide) (by decide) (by decide)).1 (by decide) 1
      (Or.inr rfl)).1

/-- C9 counterexample: memory `[{count_pre = 1}, {count_pre = 0}]`, caller at
index 1 of the range `[0, 2)`.  The claim predicts a total of
`2 * 0 + (1 + 0) = 1` (caller counted twice, every range member once), but the
first loop's aliased read doubles the already-accumulated element before the
caller as well, giving `2`. -/
theorem C9_counterexample :
    ((Checker.combine_pre [⟨1, 0, 0, 0⟩, ⟨0, 0, 0, 0⟩] 1 2).getD 1
        Checker.d0).count_pre = 2 ∧
    2 * (0 : Nat) + ((1 : Nat) + 0) = 1 ∧ (2 : Nat) ≠ 1 := by
  decide

/-- C7 (amended): `combine_pre`/`combine_post` with the caller adjacent to
(not inside) the range compute `caller prior + group total` per channel and
overwrite every group member and the caller with that value, leaving the
other channel untouched; the resulting totals are independent of the order of
the group.  The merge is NOT idempotent: reapplying it adds the
already-combined totals again (see the counterexample). -/
theorem C7_combine_characterisation (c : Checker) (l l' : List Checker)
    (h1 : c.count_pre < u64Mod) (h2 : c.sum_pre < u64Mod)
    (h3 : c.count_post < u64Mod) (h4 : c.sum_post < u64Mod)
    (hperm : l.Perm l') :
    (∀ j, j < l.length →
      (Checker.combine_pre (l ++ [c]) l.length l.length).getD j Checker.d0
        = { l.getD j Checker.d0 with
            count_pre := (c.count_pre + (l.map (fun x => x.count_pre)).sum) % u64Mod,
            sum_pre := (c.sum_pre + (l.map (fun x => x.sum_pre)).sum) % u64Mod }) ∧
    ((Checker.combine_pre (l ++ [c]) l.length l.length).getD l.length Checker.d0
        = { c with
            count_pre := (c.count_pre + (l.map (fun x => x.count_pre)).sum) % u64Mod,
            sum_pre := (c.sum_pre + (l.map (fun x => x.sum_pre)).sum) % u64Mod }) ∧
    (∀ j, j < l.length →
      (Checker.combine_post (l ++ [c]) l.length l.length).getD j Checker.d0
        = { l.getD j Checker.d0 with
            count_post := (c.count_post + (l.map (fun x => x.count_post)).sum) % u64Mod,
            sum_post := (c.sum_post + (l.map (fun x => x.sum_post)).sum) % u64Mod }) ∧
    ((Checker.combine_post (l ++ [c]) l.length l.length).getD l.length Checker.d0
        = { c with
            count_post := (c.count_post + (l.map (fun x => x.count_post)).sum) % u64Mod,
            sum_post := (c.sum_post + (l.map (fun x => x.sum_post)).sum) % u64Mod }) ∧
    ((Checker.combine_pre (l' ++ [c]) l'.length l'.length).getD l'.length Checker.d0
      = (Checker.combine_pre (l ++ [c]) l.length l.length).getD l.length Checker.d0) ∧
    ((Checker.combine_post (l' ++ [c]) l'.length l'.length).getD l'.length Checker.d0
      = (Checker.combine_post (l ++ [c]) l.length l.length).getD l.length
          Checker.d0) := by
  have key_pre : ∀ (g : List Checker),
      (∀ j, j < g.length →
        (Checker.combine_pre (g ++ [c]) g.length g.length).getD j Checker.d0
          = { g.getD j Checker.d0 with
              count_pre := (c.count_pre + (g.map (fun x => x.count_pre)).sum) % u64Mod,
              sum_pre := (c.sum_pre + (g.map (fun x => x.sum_pre)).sum) % u64Mod }) ∧
      ((Checker.combine_pre (g ++ [c]) g.length g.length).getD g.length Checker.d0
          = { c with
              count_pre := (c.count_pre + (g.map (fun x => x.count_pre)).sum) % u64Mod,
              sum_pre := (c.sum_pre + (g.map (fun x => x.sum_pre)).sum) % u64Mod }) := by
    intro g
    have hlen1 : (g ++ [c]).length = g.length + 1 := by simp
    have hsm : g.length < (g ++ [c]).length := by rw [hlen1]; omega
    have hcs : (g ++ [c]).getD g.length Checker.d0 = c := getD_append_cons_self Checker.d0 g c []
    have htk : (g ++ [c]).take g.length = g := List.take_left g [c]
    have hchar := Checker.combine_pre_no_alias_getD (g ++ [c]) g.length g.length hsm
      (by rw [hlen1]; omega) (Nat.le_refl _)
      (by rw [hcs]; exact h1) (by rw [hcs]; exact h2)
    constructor
    · intro j hj
      have h := hchar j
      rw [if_pos (Or.inl hj), hcs, htk, getD_append_left Checker.d0 g [c] j hj] at h
      exact h
    · have h := hchar g.length
      rw [if_pos (Or.inr rfl), hcs, htk] at h
      exact h
  have key_post : ∀ (g : List Checker),
      (∀ j, j < g.length →
        (Checker.combine_post (g ++ [c]) g.length g.length).getD j Checker.d0
          = { g.getD j Checker.d0 with
              count_post := (c.count_post + (g.map (fun x => x.count_post)).sum) % u64Mod,
              sum_post := (c.sum_post + (g.map (fun x => x.sum_post)).sum) % u64Mod }) ∧
      ((Checker.combine_post (g ++ [c]) g.length g.length).getD g.length Checker.d0
          = { c with
              count_post := (c.count_post + (g.map (fun x => x.count_post)).sum) % u64Mod,
              sum_post := (c.sum_post + (g.map (fun x => x.sum_post)).sum) % u64Mod }) := by
    intro g
    have hlen1 : (g ++ [c]).length = g.length + 1 := by simp
    have hsm : g.length < (g ++ [c]).length := by rw [hlen1]; omega
    have hcs : (g ++ [c]).getD g.length Checker.d0 = c := getD_append_cons_self Checker.d0 g c []
    have htk : (g ++ [c]).take g.length = g := List.take_left g [c]
    have hchar := Checker.combine_post_no_alias_getD (g ++ [c]) g.length g.length hsm
      (by rw [hlen1]; omega) (Nat.le_refl _)
      (by rw [hcs]; exact h3) (by rw [hcs]; exact h4)
    constructor
    · intro j hj
      have h := hchar j
      rw [if_pos (Or.inl hj), hcs, htk, getD_append_left Checker.d0 g [c] j hj] at h
      exact h
    · have h := hchar g.length
      rw [if_pos (Or.inr rfl), hcs, htk] at h
      exact h
  refine ⟨(key_pre l).1, (key_pre l).2, (key_post l).1, (key_post l).2, ?_, ?_⟩
  · rw [(key_pre l).2, (key_pre l').2,
      (hperm.map (fun x => x.count_pre)).sum_eq, (hperm.map (fun x => x.sum_pre)).sum_eq]
  · rw [(key_post l).2, (key_post l').2,
      (hperm.map (fun x => x.count_post)).sum_eq,
      (hperm.map (fun x => x.sum_post)).sum_eq]

/-- Witness for C7 (amended): concrete caller and two-element group. -/
theorem C7_combine_characterisation_witness :
    (Checker.combine_pre (([⟨1, 2, 3, 4⟩, ⟨5, 6, 7, 8⟩] : List Checker) ++ [⟨0, 0, 0, 0⟩])
        2 2).getD 2 Checker.d0
      = { (⟨0, 0, 0, 0⟩ : Checker) with
          count_pre := ((⟨0, 0, 0, 0⟩ : Checker).count_pre
            + (([⟨1, 2, 3, 4⟩, ⟨5, 6, 7, 8⟩] : List Checker).map
                (fun x => x.count_pre)).sum) % u64Mod,
          sum_pre := ((⟨0, 0, 0, 0⟩ : Checker).sum_pre
            + (([⟨1, 2, 3, 4⟩, ⟨5, 6, 7, 8⟩] : List Checker).map
                (fun x => x.sum_pre)).sum) % u64Mod } :=
  (C7_combine_characterisation ⟨0, 0, 0, 0⟩ [⟨1, 2, 3, 4⟩, ⟨5, 6, 7, 8⟩]
      [⟨5, 6, 7, 8⟩, ⟨1, 2, 3, 4⟩] (by decide) (by decide) (by decide) (by decide)
      (by decide)).2.1

/-- C7 counterexample: the merge is not idempotent (first conjunct: applying
`combine_pre` twice with the same caller and range changes the stored
totals), and with the caller inside the range the resulting totals depend on
the order of the accumulators (second/third conjuncts: same multiset
`{0, 1}`, caller first gives total 1, caller second gives total 2). -/
theorem C7_counterexample :
    (Checker.combine_pre (Checker.combine_pre
        [⟨1, 0, 0, 0⟩, ⟨0, 0, 0, 0⟩] 1 1) 1 1
      ≠ Checker.combine_pre [⟨1, 0, 0, 0⟩, ⟨0, 0, 0, 0⟩] 1 1) ∧
    ((Checker.combine_pre [⟨0, 0, 0, 0⟩, ⟨1, 0, 0, 0⟩] 0 2).getD 0
        Checker.d0).count_pre = 1 ∧
    ((Checker.combine_pre [⟨1, 0, 0, 0⟩, ⟨0, 0, 0, 0⟩] 1 2).getD 1
        Checker.d0).count_pre = 2 := by
  decide
